import Mathlib

/-!
Verification of the AWSDevOpsLabs repository tooling: a shallow embedding of
the lab manager (`lab-manager.py`), the pricing helper (`simple_pricing.py`),
the lab validator (`scripts/lab-validator.py`), the EC2 instance-type Config
rule and the circuit-breaker test client, together with proofs about them.

Python JSON values are embedded as the inductive `Json` (numbers are decimal
mantissa/scale pairs, mirroring the decimal text produced by `json.dump`);
`dumpVal` embeds `json.dump(..., indent=2)` and `pval`/`loads` embed
`json.load`.  In-memory Python values are embedded as `PyVal` with rational
numbers.  AWS calls are embedded as oracle records returning `Except`.
-/

set_option maxHeartbeats 1000000
set_option maxRecDepth 4000
set_option linter.unusedVariables false

/-- Decimal digit character of a value below ten. -/
def dChar : Nat → Char
  | 0 => '0' | 1 => '1' | 2 => '2' | 3 => '3' | 4 => '4'
  | 5 => '5' | 6 => '6' | 7 => '7' | 8 => '8' | 9 => '9'
  | _ => '0'

/-- Numeric value of a decimal digit character, if it is one. -/
def dVal : Char → Option Nat
  | '0' => Option.some 0 | '1' => Option.some 1 | '2' => Option.some 2
  | '3' => Option.some 3 | '4' => Option.some 4 | '5' => Option.some 5
  | '6' => Option.some 6 | '7' => Option.some 7 | '8' => Option.some 8
  | '9' => Option.some 9
  | _ => Option.none

/-- Whether a character is a decimal digit. -/
def isDigitCh (c : Char) : Bool := (dVal c).isSome

/-- Lowercase hexadecimal digit character of a value below sixteen. -/
def hexChar : Nat → Char
  | 0 => '0' | 1 => '1' | 2 => '2' | 3 => '3' | 4 => '4'
  | 5 => '5' | 6 => '6' | 7 => '7' | 8 => '8' | 9 => '9'
  | 10 => 'a' | 11 => 'b' | 12 => 'c' | 13 => 'd' | 14 => 'e' | 15 => 'f'
  | _ => '0'

/-- Numeric value of a hexadecimal digit character (either case). -/
def hexVal : Char → Option Nat
  | '0' => Option.some 0 | '1' => Option.some 1 | '2' => Option.some 2
  | '3' => Option.some 3 | '4' => Option.some 4 | '5' => Option.some 5
  | '6' => Option.some 6 | '7' => Option.some 7 | '8' => Option.some 8
  | '9' => Option.some 9
  | 'a' => Option.some 10 | 'b' => Option.some 11 | 'c' => Option.some 12
  | 'd' => Option.some 13 | 'e' => Option.some 14 | 'f' => Option.some 15
  | 'A' => Option.some 10 | 'B' => Option.some 11 | 'C' => Option.some 12
  | 'D' => Option.some 13 | 'E' => Option.some 14 | 'F' => Option.some 15
  | _ => Option.none

/-- Four lowercase hex digits of a code point below 0x10000, as in
Python's `'\\u%04x'` escapes. -/
def toHex4 (n : Nat) : List Char :=
  [hexChar (n / 4096 % 16), hexChar (n / 256 % 16), hexChar (n / 16 % 16), hexChar (n % 16)]

/-- Combined value of four hex digit characters. -/
def hex4 (a b c d : Char) : Option Nat :=
  match hexVal a, hexVal b, hexVal c, hexVal d with
  | some va, some vb, some vc, some vd => some (((va * 16 + vb) * 16 + vc) * 16 + vd)
  | _, _, _, _ => none

/-- The decimal digit characters of a natural number, most significant first. -/
def natDigits (n : Nat) : List Char :=
  if h : n < 10 then [dChar n] else natDigits (n / 10) ++ [dChar (n % 10)]
  termination_by n
  decreasing_by exact Nat.div_lt_self (by omega) (by omega)

/-- Value of a list of digit characters read most significant first. -/
def digitsVal (ds : List Char) : Nat :=
  ds.foldl (fun a c => a * 10 + (dVal c).getD 0) 0

/-- Digits of `n` zero-padded on the left to width `e`, as in the fractional
part of a fixed-point decimal. -/
def padDigits (e n : Nat) : List Char :=
  List.replicate (e - (natDigits n).length) '0' ++ natDigits n

/-- Longest prefix of decimal digit characters together with the remainder. -/
def takeDigits : List Char → List Char × List Char
  | [] => ([], [])
  | c :: rest =>
    if isDigitCh c then
      let p := takeDigits rest
      (c :: p.1, p.2)
    else ([], c :: rest)

/-- The character of a code point, when the code point is a valid scalar value. -/
def charOfNat (n : Nat) : Option Char :=
  if h : n.isValidChar then some (Char.ofNatAux n h) else none

/-- JSON string-content escaping of one character, following Python's
`json.encoder` with `ensure_ascii=True`: the two-character escapes of
`ESCAPE_DCT`, `\uXXXX` for other characters outside printable ASCII, and
surrogate pairs above 0xFFFF. -/
def escapeChar (c : Char) : List Char :=
  if c = '"' then ['\\', '"']
  else if c = '\\' then ['\\', '\\']
  else if c = Char.ofNat 8 then ['\\', 'b']
  else if c = Char.ofNat 12 then ['\\', 'f']
  else if c = '\n' then ['\\', 'n']
  else if c = Char.ofNat 13 then ['\\', 'r']
  else if c = '\t' then ['\\', 't']
  else if c.toNat < 0x20 then '\\' :: 'u' :: toHex4 c.toNat
  else if c.toNat < 0x7f then [c]
  else if c.toNat < 0x10000 then '\\' :: 'u' :: toHex4 c.toNat
  else
    '\\' :: 'u' :: toHex4 (0xd800 + (c.toNat - 0x10000) / 0x400) ++
      '\\' :: 'u' :: toHex4 (0xdc00 + (c.toNat - 0x10000) % 0x400)

/-- Escaped body of a JSON string (without the surrounding quotes). -/
def escBody : List Char → List Char
  | [] => []
  | c :: cs => escapeChar c ++ escBody cs

/-- Whitespace characters skipped by Python's JSON decoder. -/
def isWsCh (c : Char) : Bool := c = ' ' || c = '\t' || c = '\n' || c = Char.ofNat 13

/-- Drop leading JSON whitespace. -/
def skipWs : List Char → List Char
  | [] => []
  | c :: rest => if isWsCh c then skipWs rest else c :: rest

/- JSON document values as written to and read from `sessions.json`.
Numbers are a decimal mantissa with a scale: `jnum m e` denotes
`m / 10 ^ e`, mirroring the decimal literals in the file. -/
mutual
inductive Json where
  | jnull : Json
  | jbool : Bool → Json
  | jnum : Int → Nat → Json
  | jstr : List Char → Json
  | jarr : JsonList → Json
  | jobj : JsonMembers → Json
inductive JsonList where
  | nil : JsonList
  | cons : Json → JsonList → JsonList
inductive JsonMembers where
  | nil : JsonMembers
  | cons : List Char → Json → JsonMembers → JsonMembers
end

/-- Decimal text of the number `m / 10 ^ e`, as `json.dump` writes it. -/
def dumpNum (m : Int) (e : Nat) : List Char :=
  (if m < 0 then ['-'] else []) ++
    (if e = 0 then natDigits m.natAbs
     else natDigits (m.natAbs / 10 ^ e) ++ '.' :: padDigits e (m.natAbs % 10 ^ e))

/-- Quoted, escaped JSON string literal. -/
def dumpStr (s : List Char) : List Char := '"' :: escBody s ++ ['"']

/-- Indentation written by `json.dump(..., indent=2)` at nesting level `lvl`. -/
def ind (lvl : Nat) : List Char := List.replicate (2 * lvl) ' '

/- Serialization of a JSON value exactly as `json.dump(sessions, f, indent=2)`
lays it out: each container item on its own line, two spaces per level,
`": "` after keys, and `[]`/`\x7b\x7d` for empty containers. -/
mutual
def dumpVal : Json → Nat → List Char
  | .jnull, _ => ['n', 'u', 'l', 'l']
  | .jbool true, _ => ['t', 'r', 'u', 'e']
  | .jbool false, _ => ['f', 'a', 'l', 's', 'e']
  | .jnum m e, _ => dumpNum m e
  | .jstr s, _ => dumpStr s
  | .jarr .nil, _ => ['[', ']']
  | .jarr (.cons v tl), lvl =>
    '[' :: dumpItems (.cons v tl) (lvl + 1) ++ '\n' :: (ind lvl ++ [']'])
  | .jobj .nil, _ => ['{', '}']
  | .jobj (.cons k v tl), lvl =>
    '{' :: dumpMembers (.cons k v tl) (lvl + 1) ++ '\n' :: (ind lvl ++ ['}'])
def dumpItems : JsonList → Nat → List Char
  | .nil, _ => []
  | .cons v tl, lvl => '\n' :: (ind lvl ++ dumpVal v lvl ++ dumpSep tl lvl)
def dumpSep : JsonList → Nat → List Char
  | .nil, _ => []
  | .cons v tl, lvl => ',' :: dumpItems (.cons v tl) lvl
def dumpMembers : JsonMembers → Nat → List Char
  | .nil, _ => []
  | .cons k v tl, lvl =>
    '\n' :: (ind lvl ++ dumpStr k ++ ':' :: ' ' :: (dumpVal v lvl ++ dumpMSep tl lvl))
def dumpMSep : JsonMembers → Nat → List Char
  | .nil, _ => []
  | .cons k v tl, lvl => ',' :: dumpMembers (.cons k v tl) lvl
end

/-- Top-level serialization (level 0), the file contents written by
`LabManager._save_sessions`. -/
def dumps (v : Json) : List Char := dumpVal v 0

/-- The two-character escapes accepted by Python's JSON string decoder. -/
def escSimple : Char → Option Char
  | '"' => some '"'
  | '\\' => some '\\'
  | '/' => some '/'
  | 'b' => some (Char.ofNat 8)
  | 'f' => some (Char.ofNat 12)
  | 'n' => some '\n'
  | 'r' => some (Char.ofNat 13)
  | 't' => some '\t'
  | _ => none

/-- Decode one escape sequence after a backslash, following Python's
`py_scanstring`: the two-character escapes of `BACKSLASH`, and `\uXXXX`
escapes, combining a high surrogate with a following `\uXXXX` low
surrogate.  Returns the decoded character and the remaining input. -/
def decodeEsc : List Char → Option (Char × List Char)
  | [] => none
  | e :: rest =>
    if e = 'u' then
      match rest with
      | a :: b :: c2 :: d :: rest2 =>
        match hex4 a b c2 d with
        | none => none
        | some n =>
          if 0xd800 ≤ n ∧ n ≤ 0xdbff then
            match rest2 with
            | b1 :: u1 :: rest3 =>
              if b1 = '\\' ∧ u1 = 'u' then
                match rest3 with
                | a2 :: b2 :: c3 :: d2 :: rest4 =>
                  match hex4 a2 b2 c3 d2 with
                  | none => none
                  | some m =>
                    if 0xdc00 ≤ m ∧ m ≤ 0xdfff then
                      (charOfNat (0x10000 + (n - 0xd800) * 0x400 + (m - 0xdc00))).map
                        (fun ch => (ch, rest4))
                    else none
                | _ => none
              else none
            | _ => none
          else (charOfNat n).map (fun ch => (ch, rest2))
      | _ => none
    else (escSimple e).map (fun ch => (ch, rest))

/-- Parse a JSON string body after the opening quote, following Python's
`py_scanstring`: plain characters up to the closing quote (bare control
characters rejected in strict mode) and backslash escapes via `decodeEsc`. -/
def pstr : List Char → Option (List Char × List Char)
  | [] => none
  | c :: rest =>
    if c = '"' then some ([], rest)
    else if c = '\\' then
      match h : decodeEsc rest with
      | none => none
      | some (ch, rest2) => (pstr rest2).map (fun p => (ch :: p.1, p.2))
    else if c.toNat < 0x20 then none
    else (pstr rest).map (fun p => (c :: p.1, p.2))
  termination_by xs => xs.length
  decreasing_by
  · have hlen : rest2.length < rest.length := by
      rcases rest with _ | ⟨e, r⟩
      · simp [decodeEsc] at h
      · simp only [decodeEsc] at h
        repeat' split at h
        all_goals simp_all [Option.map_eq_some']
        all_goals obtain ⟨a0, ha0, hach, hrr⟩ := h
        all_goals subst hrr
        all_goals omega
    simp
    omega
  · simp

/-- Parse the integer part of a JSON number: `0` or a nonzero digit followed
by digits (leading zeros are rejected, as in Python's `NUMBER_RE`). -/
def pint : List Char → Option (Nat × List Char)
  | [] => none
  | c :: rest =>
    if c = '0' then some (0, rest)
    else if isDigitCh c then
      let p := takeDigits rest
      some (digitsVal (c :: p.1), p.2)
    else none

/-- Parse an optional fractional part; absent parts yield value 0 and width 0. -/
def pfrac (xs : List Char) : Option (Nat × Nat × List Char) :=
  match xs with
  | [] => some (0, 0, [])
  | c :: rest =>
    if c = '.' then
      let p := takeDigits rest
      if p.1 = [] then none else some (digitsVal p.1, p.1.length, p.2)
    else some (0, 0, c :: rest)

/-- Parse an optional exponent part; absent parts yield exponent 0. -/
def pexp (xs : List Char) : Option (Int × List Char) :=
  match xs with
  | c :: rest =>
    if c = 'e' ∨ c = 'E' then
      match rest with
      | '-' :: rest2 =>
        let p := takeDigits rest2
        if p.1 = [] then none else some (-(digitsVal p.1 : Int), p.2)
      | '+' :: rest2 =>
        let p := takeDigits rest2
        if p.1 = [] then none else some ((digitsVal p.1 : Int), p.2)
      | rest2 =>
        let p := takeDigits rest2
        if p.1 = [] then none else some ((digitsVal p.1 : Int), p.2)
    else some (0, xs)
  | [] => some (0, [])

/-- Parse an unsigned JSON number into mantissa/scale form. -/
def pnumAbs (xs : List Char) : Option (Json × List Char) :=
  match pint xs with
  | none => none
  | some (i, r1) =>
    match pfrac r1 with
    | none => none
    | some (fv, fl, r2) =>
      match pexp r2 with
      | none => none
      | some (ex, r3) =>
        let m : Int := (i * 10 ^ fl + fv : Nat)
        let s : Int := (fl : Int) - ex
        if s ≤ 0 then some (.jnum (m * 10 ^ (-s).toNat) 0, r3)
        else some (.jnum m s.toNat, r3)

/-- Negate a parsed JSON number. -/
def negJson : Json → Json
  | .jnum m e => .jnum (-m) e
  | v => v

/-- Parse a JSON number with optional leading minus sign. -/
def pnum (xs : List Char) : Option (Json × List Char) :=
  match xs with
  | [] => none
  | c :: rest =>
    if c = '-' then (pnumAbs rest).map (fun p => (negJson p.1, p.2))
    else pnumAbs (c :: rest)

/-- Recognize three expected literal characters and yield a constant value,
used for the tails of `true` and `null`. -/
def lit3 (c1 c2 c3 : Char) (v : Json) : List Char → Option (Json × List Char)
  | a :: b :: c :: r => if a = c1 ∧ b = c2 ∧ c = c3 then some (v, r) else none
  | _ => none

/-- Recognize four expected literal characters and yield a constant value,
used for the tail of `false`. -/
def lit4 (c1 c2 c3 c4 : Char) (v : Json) : List Char → Option (Json × List Char)
  | a :: b :: c :: d :: r =>
    if a = c1 ∧ b = c2 ∧ c = c3 ∧ d = c4 then some (v, r) else none
  | _ => none

/- Recursive-descent JSON value parser with a recursion budget, following
Python's `json.scanner`/`json.decoder`: `pval` skips whitespace and
dispatches; `pitems0`/`pitemsRest` parse array bodies after `[`;
`pmembers0`/`pmembersRest` parse object bodies after the opening brace. -/
mutual
def pval : Nat → List Char → Option (Json × List Char)
  | 0, _ => none
  | fuel + 1, xs =>
    match skipWs xs with
    | [] => none
    | c :: rest =>
      if c = '{' then pmembers0 fuel rest
      else if c = '[' then pitems0 fuel rest
      else if c = '"' then (pstr rest).map (fun p => (.jstr p.1, p.2))
      else if c = 't' then lit3 'r' 'u' 'e' (.jbool true) rest
      else if c = 'f' then lit4 'a' 'l' 's' 'e' (.jbool false) rest
      else if c = 'n' then lit3 'u' 'l' 'l' .jnull rest
      else pnum (c :: rest)
def pitems0 : Nat → List Char → Option (Json × List Char)
  | 0, _ => none
  | fuel + 1, xs =>
    match skipWs xs with
    | [] => none
    | c :: rest =>
      if c = ']' then some (.jarr .nil, rest)
      else
        match pval fuel (c :: rest) with
        | none => none
        | some (v, r1) => (pitemsRest fuel r1).map (fun p => (.jarr (.cons v p.1), p.2))
def pitemsRest : Nat → List Char → Option (JsonList × List Char)
  | 0, _ => none
  | fuel + 1, xs =>
    match skipWs xs with
    | [] => none
    | c :: rest =>
      if c = ']' then some (.nil, rest)
      else if c = ',' then
        match pval fuel rest with
        | none => none
        | some (v, r1) => (pitemsRest fuel r1).map (fun p => (JsonList.cons v p.1, p.2))
      else none
def pmembers0 : Nat → List Char → Option (Json × List Char)
  | 0, _ => none
  | fuel + 1, xs =>
    match skipWs xs with
    | [] => none
    | c :: rest =>
      if c = '}' then some (.jobj .nil, rest)
      else if c = '"' then
        match pstr rest with
        | none => none
        | some (k, r1) =>
          match skipWs r1 with
          | c2 :: r2 =>
            if c2 = ':' then
              match pval fuel r2 with
              | none => none
              | some (v, r3) =>
                (pmembersRest fuel r3).map (fun p => (.jobj (.cons k v p.1), p.2))
            else none
          | [] => none
      else none
def pmembersRest : Nat → List Char → Option (JsonMembers × List Char)
  | 0, _ => none
  | fuel + 1, xs =>
    match skipWs xs with
    | [] => none
    | c :: rest =>
      if c = '}' then some (.nil, rest)
      else if c = ',' then
        match skipWs rest with
        | c1 :: r1 =>
          if c1 = '"' then
            match pstr r1 with
            | none => none
            | some (k, r2) =>
              match skipWs r2 with
              | c3 :: r3 =>
                if c3 = ':' then
                  match pval fuel r3 with
                  | none => none
                  | some (v, r4) =>
                    (pmembersRest fuel r4).map (fun p => (JsonMembers.cons k v p.1, p.2))
                else none
              | [] => none
          else none
        | [] => none
      else none
end

/-- Deserialize a complete JSON document as `json.load` does: parse one value,
then require only trailing whitespace. -/
def loads (s : List Char) : Option Json :=
  match pval (s.length + 1) s with
  | some (v, rest) => if skipWs rest = [] then some v else none
  | none => none

/- Recursion budget needed by `pval` for a value (see `rsize`/`msize`). -/
mutual
def jsize : Json → Nat
  | .jnull => 1
  | .jbool _ => 1
  | .jnum _ _ => 1
  | .jstr _ => 1
  | .jarr .nil => 2
  | .jarr (.cons v tl) => 2 + jsize v + rsize tl
  | .jobj .nil => 2
  | .jobj (.cons _ v tl) => 2 + jsize v + msize tl
def rsize : JsonList → Nat
  | .nil => 1
  | .cons v tl => 1 + jsize v + rsize tl
def msize : JsonMembers → Nat
  | .nil => 1
  | .cons _ v tl => 1 + jsize v + msize tl
end

/-- A list whose head (if any) cannot extend a JSON number: not a digit and
none of `.`, `e`, `E`.  Every separator the serializer emits after a value
satisfies this. -/
def delimHead (rest : List Char) : Prop :=
  ∀ c, rest.head? = some c → isDigitCh c = false ∧ c ≠ '.' ∧ c ≠ 'e' ∧ c ≠ 'E'

/- `LabManager._load_sessions`: return the parsed JSON file contents, or the
empty dict when the file is absent or unparsable. -/
def load_sessions (file : Option (List Char)) : Json :=
  match file with
  | none => .jobj .nil
  | some s =>
    match loads s with
    | some v => v
    | none => .jobj .nil

/- `LabManager._save_sessions`: write `json.dump(self.sessions, f, indent=2)`
to the sessions file. -/
def save_sessions (sessions : JsonMembers) : List Char := dumps (.jobj sessions)

-- ===================================================================
-- Shared model infrastructure: Python datetimes, dictionaries
-- ===================================================================

/- A `datetime.datetime` value as produced by `datetime.now()`, with the
ranges Python guarantees for its fields (`datetime.MAXYEAR` is 9999). -/
structure PyDateTime where
  year : Nat
  month : Nat
  day : Nat
  hour : Nat
  minute : Nat
  second : Nat
  microsecond : Nat
  year_lb : 1 ≤ year
  year_ub : year ≤ 9999
  month_lb : 1 ≤ month
  month_ub : month ≤ 12
  day_lb : 1 ≤ day
  day_ub : day ≤ 31
  hour_ub : hour ≤ 23
  minute_ub : minute ≤ 59
  second_ub : second ≤ 59
  microsecond_ub : microsecond ≤ 999999

/- `datetime.isoformat()`: `YYYY-MM-DDTHH:MM:SS` plus `.ffffff` when the
microsecond field is nonzero. -/
def pyIsoformat (d : PyDateTime) : String :=
  ⟨padDigits 4 d.year ++ '-' :: padDigits 2 d.month ++ '-' :: padDigits 2 d.day ++
    'T' :: padDigits 2 d.hour ++ ':' :: padDigits 2 d.minute ++ ':' :: padDigits 2 d.second ++
    (if d.microsecond = 0 then [] else '.' :: padDigits 6 d.microsecond)⟩

/- `datetime.strftime('%Y%m%d-%H%M%S')`, the timestamp `start_lab` embeds in
new session ids. -/
def pyStrftimeId (d : PyDateTime) : String :=
  ⟨padDigits 4 d.year ++ padDigits 2 d.month ++ padDigits 2 d.day ++
    '-' :: padDigits 2 d.hour ++ padDigits 2 d.minute ++ padDigits 2 d.second⟩

/- Consume exactly `n` decimal digit characters. -/
def takeDigitsN : Nat → List Char → Option (List Char)
  | 0, xs => some xs
  | n + 1, c :: xs => if isDigitCh c then takeDigitsN n xs else none
  | _ + 1, [] => none

/- Consume one expected character. -/
def expectCh (c : Char) : List Char → Option (List Char)
  | d :: tl => if d = c then some tl else none
  | [] => none

/- ISO-8601 timestamp shape `YYYY-MM-DDTHH:MM:SS` with an optional
`.ffffff` fractional-seconds suffix. -/
def isIsoTimestamp (s : String) : Bool :=
  match (do
    let r ← takeDigitsN 4 s.data
    let r ← expectCh '-' r
    let r ← takeDigitsN 2 r
    let r ← expectCh '-' r
    let r ← takeDigitsN 2 r
    let r ← expectCh 'T' r
    let r ← takeDigitsN 2 r
    let r ← expectCh ':' r
    let r ← takeDigitsN 2 r
    let r ← expectCh ':' r
    takeDigitsN 2 r : Option (List Char)) with
  | none => false
  | some [] => true
  | some ('.' :: r) => takeDigitsN 6 r == some []
  | some _ => false

/- Python dict assignment `m[k] = v`: replace the value in place when the key
exists, append a new entry otherwise. -/
def dictSet {α : Type} (m : List (String × α)) (k : String) (v : α) :
    List (String × α) :=
  if m.any (fun p => p.1 == k) then
    m.map (fun p => if p.1 == k then (k, v) else p)
  else m ++ [(k, v)]

/- Python truthiness of an optional string (`if notes:`). -/
def strTruthy : Option String → Bool
  | none => false
  | some s => s ≠ ""

-- ===================================================================
-- LabManager session model (lab-manager.py)
-- ===================================================================

/- One entry of a session's `progress['steps']` list. -/
structure Step where
  name : String
  completed : Bool
  started_at : Option String
  completed_at : Option String
  notes : Option String
deriving DecidableEq, Repr

/- A session's `progress` dictionary. -/
structure Progress where
  steps : List Step
  current_step : Option String
  completion_percentage : ℚ
  last_updated : String
deriving DecidableEq, Repr

/- The `resources` dictionary created by `start_lab`. -/
structure Resources where
  cloudformation_stacks : List String
  ec2_instances : List String
  lambda_functions : List String
  s3_buckets : List String
  iam_roles : List String
deriving DecidableEq, Repr

def emptyResources : Resources := ⟨[], [], [], [], []⟩

/- A session record as written by `LabManager` (optional keys are `none`
until the corresponding operation adds them). -/
structure Session where
  lab_id : String
  start_time : String
  status : String
  «resources» : Resources
  estimated_cost : ℚ
  actual_cost : ℚ
  resource_tags : List (String × String)
  end_time : Option String
  cleanup_time : Option String
  cleanup_verified : Option Bool
  progress : Option Progress
deriving DecidableEq, Repr

/- Static metadata of one lab in `labs-config.yaml`. -/
structure LabInfo where
  name : String
  path : String
  estimated_cost : ℚ
deriving DecidableEq, Repr

/- The sessions file: a flat map from session id to session record. -/
def Sessions := List (String × Session)

/- `LabManager.start_lab`: validate the lab id, refuse a second running
session of the same lab, otherwise create and store a fresh session record.
Returns the printed boolean outcome and the saved sessions map. -/
def start_lab (labs : List (String × LabInfo)) (resource_tags : List (String × String))
    (sessions : List (String × Session)) (lab_id : String) (now : PyDateTime) :
    Bool × List (String × Session) :=
  match labs.lookup lab_id with
  | none => (false, sessions)
  | some lab_info =>
    if sessions.any (fun p => p.2.lab_id == lab_id && p.2.status == "running") then
      (false, sessions)
    else
      let session_id := lab_id ++ "-" ++ pyStrftimeId now
      let session : Session :=
        { lab_id := lab_id
          start_time := pyIsoformat now
          status := "running"
          «resources» := emptyResources
          estimated_cost := lab_info.estimated_cost
          actual_cost := 0
          resource_tags := dictSet (dictSet resource_tags "SessionId" session_id)
            "LabId" lab_id
          end_time := none
          cleanup_time := none
          cleanup_verified := none
          progress := none }
      (true, dictSet sessions session_id session)

/- `LabManager.stop_lab`: mark a running session stopped and stamp its end
time. -/
def stop_lab (sessions : List (String × Session)) (session_id : String)
    (now : PyDateTime) : Bool × List (String × Session) :=
  match sessions.lookup session_id with
  | none => (false, sessions)
  | some s =>
    if s.status != "running" then (false, sessions)
    else
      (true, dictSet sessions session_id
        { s with status := "stopped", end_time := some (pyIsoformat now) })

/- `LabManager.cleanup_session`: run the cleanup script and verification
(whose combined outcome `cleanup_success` arrives from the environment),
then record the resulting status and cleanup time. -/
def cleanup_session (sessions : List (String × Session)) (session_id : String)
    (verify : Bool) (cleanup_success : Bool) (now : PyDateTime) :
    Bool × List (String × Session) :=
  match sessions.lookup session_id with
  | none => (false, sessions)
  | some s =>
    (cleanup_success, dictSet sessions session_id
      { s with status := if cleanup_success then "cleaned_up" else "cleanup_failed"
               cleanup_time := some (pyIsoformat now)
               cleanup_verified := some (verify && cleanup_success) })

/- The `for step in progress['steps']` update loop: set the fields of the
first step with the given name, leave the rest alone. -/
def updateFirstStep (steps : List Step) (step_name : String) (completed : Bool)
    (notes : Option String) (now : PyDateTime) : List Step :=
  match steps with
  | [] => []
  | st :: tl =>
    if st.name == step_name then
      { st with completed := completed
                completed_at := if completed then some (pyIsoformat now) else none
                notes := if strTruthy notes then notes else st.notes } :: tl
    else st :: updateFirstStep tl step_name completed notes now

/- The `next_step` scan: name of the first step whose `completed` field is
falsy, `None` when every step is completed. -/
def findNextIncomplete : List Step → Option String
  | [] => none
  | st :: tl => if !st.completed then some st.name else findNextIncomplete tl

/- `LabManager.update_session_progress`: find or create the named step,
recompute `current_step` and `completion_percentage`, and save. -/
def update_session_progress (sessions : List (String × Session))
    (session_id step_name : String) (completed : Bool) (notes : Option String)
    (now : PyDateTime) : Bool × List (String × Session) :=
  match sessions.lookup session_id with
  | none => (false, sessions)
  | some s =>
    let progress0 : Progress :=
      match s.progress with
      | none => { steps := [], current_step := none, completion_percentage := 0,
                  last_updated := pyIsoformat now }
      | some p => p
    let step_found := progress0.steps.any (fun st => st.name == step_name)
    let steps1 :=
      if step_found then
        updateFirstStep progress0.steps step_name completed notes now
      else
        progress0.steps ++
          [{ name := step_name
             completed := completed
             started_at := some (pyIsoformat now)
             completed_at := if completed then some (pyIsoformat now) else none
             notes := if strTruthy notes then notes else none }]
    let current_step :=
      if completed then findNextIncomplete steps1 else some step_name
    let completed_steps := (steps1.filter (fun st => st.completed)).length
    let total_steps := steps1.length
    let pct : ℚ :=
      if total_steps > 0 then (completed_steps : ℚ) / (total_steps : ℚ) * 100 else 0
    let progress1 : Progress :=
      { steps := steps1
        current_step := current_step
        completion_percentage := pct
        last_updated := pyIsoformat now }
    (true, dictSet sessions session_id { s with progress := some progress1 })

-- ===================================================================
-- AWS resource discovery model (lab-manager.py, lab-validator.py)
-- ===================================================================

/- boto3 responses, with datetime fields carried as their `.isoformat()`
strings and boto3's `[{'Key': k, 'Value': v}]` tag lists carried as the
key-value maps the code immediately converts them to. Optional response
keys accessed with `.get(key, default)` are `Option` fields. -/

structure StackSummary where
  StackName : String
  StackStatus : String
  CreationTime : String
deriving DecidableEq, Repr

structure StackDetail where
  Tags : Option (List (String × String))
deriving DecidableEq, Repr

structure DescribeStacksResp where
  Stacks : List StackDetail
deriving DecidableEq, Repr

structure StacksResp where
  StackSummaries : List StackSummary
deriving DecidableEq, Repr

structure EC2Instance where
  InstanceId : String
  InstanceType : String
  StateName : String
  LaunchTime : String
  Tags : Option (List (String × String))
deriving DecidableEq, Repr

structure Reservation where
  Instances : List EC2Instance
deriving DecidableEq, Repr

structure InstResp where
  Reservations : List Reservation
deriving DecidableEq, Repr

structure LambdaFn where
  FunctionName : String
  Runtime : String
  LastModified : String
  FunctionArn : String
deriving DecidableEq, Repr

structure FnResp where
  Functions : List LambdaFn
deriving DecidableEq, Repr

structure TagsResp where
  Tags : Option (List (String × String))
deriving DecidableEq, Repr

/- The AWS API surface these functions call. `.error msg` is a boto3
`ClientError` raised by that call. -/
structure AwsApi where
  list_stacks : Except String StacksResp
  describe_stacks : String → Except String DescribeStacksResp
  describe_instances : Except String InstResp
  list_functions : Except String FnResp
  list_tags : String → Except String TagsResp

/- `LabManager._get_stack_tags`: tags of a stack, `\x7b\x7d` on `ClientError`.
The result is `Except`: `.error` marks an exception the function does not
catch (the `[0]` index on an empty `Stacks` list). -/
def get_stack_tags (api : AwsApi) (stack_name : String) :
    Except String (List (String × String)) :=
  match api.describe_stacks stack_name with
  | .error _ => .ok []
  | .ok resp =>
    match resp.Stacks.head? with
    | some st => .ok (st.Tags.getD [])
    | none => .error "IndexError"

/- The stack loop of `LabValidator._get_session_stacks`: describe each stack
(skipping it on `ClientError`) and keep those tagged with this session id. -/
def sessionStacksLoop (api : AwsApi) (session_id : String) :
    List StackSummary → Except String (List StackDetail)
  | [] => .ok []
  | st :: tl =>
    match api.describe_stacks st.StackName with
    | .error _ => sessionStacksLoop api session_id tl
    | .ok dresp =>
      match dresp.Stacks.head? with
      | none => .error "IndexError"
      | some info =>
        match sessionStacksLoop api session_id tl with
        | .error e => .error e
        | .ok rest =>
          if (info.Tags.getD []).lookup "SessionId" == some session_id then
            .ok (info :: rest)
          else .ok rest

/- `LabValidator._get_session_stacks`: the session's CloudFormation stacks,
`[]` when the initial `list_stacks` call raises `ClientError`. -/
def get_session_stacks (api : AwsApi) (session_id : String) :
    Except String (List StackDetail) :=
  match api.list_stacks with
  | .error _ => .ok []
  | .ok resp => sessionStacksLoop api session_id resp.StackSummaries

/- `LabManager._is_lab_resource`. -/
def is_lab_resource (tags : List (String × String)) (session_id : Option String) :
    Bool :=
  if !(tags.lookup "Project" == some "AWSDevOpsLabs") then false
  else if (match session_id with
           | some sid => sid ≠ "" && tags.lookup "SessionId" != some sid
           | none => false) then false
  else true

/- Entries of the inventory dictionary `get_resource_inventory` builds. -/
structure StackEntry where
  name : String
  status : String
  creation_time : String
  tags : List (String × String)
deriving DecidableEq, Repr

structure InstEntry where
  instance_id : String
  instance_type : String
  state : String
  launch_time : String
  tags : List (String × String)
deriving DecidableEq, Repr

structure FnEntry where
  name : String
  runtime : String
  last_modified : String
  tags : List (String × String)
deriving DecidableEq, Repr

structure Inventory where
  cloudformation_stacks : List StackEntry
  ec2_instances : List InstEntry
  lambda_functions : List FnEntry
  s3_buckets : List String
  iam_roles : List String
  total_estimated_cost : ℚ
deriving DecidableEq, Repr

/- The inventory dictionary as `get_resource_inventory` initializes it. -/
def emptyInventory : Inventory := ⟨[], [], [], [], [], 0⟩

/- Round half to even, the rounding of Python's built-in `round`. -/
def roundHalfEven (x : ℚ) : Int :=
  let n := ⌊x⌋
  if x - n < 1 / 2 then n
  else if 1 / 2 < x - n then n + 1
  else if n % 2 = 0 then n else n + 1

/- Python `round(x, 2)` and `round(x, 4)`. -/
def round2 (x : ℚ) : ℚ := (roundHalfEven (x * 100) : ℚ) / 100

def round4 (x : ℚ) : ℚ := (roundHalfEven (x * 10000) : ℚ) / 10000

/- `LabManager._calculate_resource_costs`. -/
def instance_costs : List (String × ℚ) :=
  [("t2.micro", 116 / 10000), ("t2.small", 23 / 1000), ("t2.medium", 46 / 1000),
   ("t3.micro", 104 / 10000), ("t3.small", 21 / 1000), ("t3.medium", 42 / 1000),
   ("m5.large", 96 / 1000), ("m5.xlarge", 192 / 1000)]

def calculate_resource_costs (inventory : Inventory) : ℚ :=
  let ec2 := inventory.ec2_instances.foldl (fun acc inst =>
    if inst.state == "running" then
      acc + ((instance_costs.lookup inst.instance_type).getD (5 / 100))
    else acc) 0
  round2 (ec2 + (inventory.lambda_functions.length : ℚ) * (1 / 100) + 1 / 2)

/- The CloudFormation loop of `get_resource_inventory`: tags come from
`_get_stack_tags` (which swallows its own `ClientError`); an uncaught
exception from it propagates. -/
def inventoryStacks (api : AwsApi) (session_id : Option String) :
    List StackSummary → Except String (List StackEntry)
  | [] => .ok []
  | st :: tl =>
    match get_stack_tags api st.StackName with
    | .error e => .error e
    | .ok stack_tags =>
      match inventoryStacks api session_id tl with
      | .error e => .error e
      | .ok rest =>
        if is_lab_resource stack_tags session_id then
          .ok ({ name := st.StackName, status := st.StackStatus,
                 creation_time := st.CreationTime, tags := stack_tags } :: rest)
        else .ok rest

/- The EC2 loop of `get_resource_inventory` (no further API calls). -/
def inventoryInstances (session_id : Option String) (resp : InstResp) :
    List InstEntry :=
  resp.Reservations.flatMap (fun r =>
    r.Instances.filterMap (fun i =>
      if i.StateName != "terminated" then
        if is_lab_resource (i.Tags.getD []) session_id then
          some { instance_id := i.InstanceId, instance_type := i.InstanceType,
                 state := i.StateName, launch_time := i.LaunchTime,
                 tags := i.Tags.getD [] }
        else none
      else none))

/- The Lambda loop of `get_resource_inventory`: each iteration calls
`list_tags`; a `ClientError` there aborts the loop (and, in the caller, the
whole `try` block) with the functions appended so far. -/
def inventoryFunctions (api : AwsApi) (session_id : Option String) :
    List LambdaFn → List FnEntry × Option String
  | [] => ([], none)
  | fn :: tl =>
    match api.list_tags fn.FunctionArn with
    | .error e => ([], some e)
    | .ok tresp =>
      let tags := tresp.Tags.getD []
      let (rest, err) := inventoryFunctions api session_id tl
      if is_lab_resource tags session_id then
        ({ name := fn.FunctionName, runtime := fn.Runtime,
           last_modified := fn.LastModified, tags := tags } :: rest, err)
      else (rest, err)

/- `LabManager.get_resource_inventory` (with AWS credentials available): the
`try` block runs the four phases in order; a `ClientError` at any point is
caught by the final `except`, which returns the inventory as built so far.
`.error` marks an exception the `except ClientError` clause does not catch. -/
def get_resource_inventory (api : AwsApi) (session_id : Option String) :
    Except String Inventory :=
  match api.list_stacks with
  | .error _ => .ok emptyInventory
  | .ok sresp =>
    match inventoryStacks api session_id sresp.StackSummaries with
    | .error e => .error e
    | .ok sts =>
      let inv1 := { emptyInventory with cloudformation_stacks := sts }
      match api.describe_instances with
      | .error _ => .ok inv1
      | .ok iresp =>
        let inv2 := { inv1 with ec2_instances := inventoryInstances session_id iresp }
        match api.list_functions with
        | .error _ => .ok inv2
        | .ok fresp =>
          match inventoryFunctions api session_id fresp.Functions with
          | (fns, some _) => .ok { inv2 with lambda_functions := fns }
          | (fns, none) =>
            let inv3 := { inv2 with lambda_functions := fns }
            .ok { inv3 with total_estimated_cost := calculate_resource_costs inv3 }

-- ===================================================================
-- LabValidator overall status (lab-validator.py)
-- ===================================================================

/- One named check's result: its status and accumulated issue strings. -/
structure CheckResult where
  status : String
  issues : List String
deriving DecidableEq, Repr

/- The fields of `self.validation_results` that `_determine_overall_status`
reads and writes (`checks` is insertion-ordered, like a Python dict). -/
structure ValidationResults where
  overall_status : String
  checks : List (String × CheckResult)
  errors : List String
  warnings : List String
deriving DecidableEq, Repr

/- `LabValidator._determine_overall_status`. -/
def determine_overall_status (vr : ValidationResults) : ValidationResults :=
  let has_errors := vr.checks.any (fun c => c.2.status == "error")
  let has_failures := vr.checks.any (fun c => c.2.status == "failed")
  let has_warnings := vr.checks.any (fun c => c.2.status == "warning")
  let overall :=
    if has_errors then "error"
    else if has_failures then "failed"
    else if has_warnings then "warning"
    else "passed"
  vr.checks.foldl (fun acc c =>
    c.2.issues.foldl (fun acc issue =>
      if c.2.status == "error" then
        { acc with errors := acc.errors ++ [c.1 ++ ": " ++ issue] }
      else if c.2.status == "failed" then
        { acc with errors := acc.errors ++ [c.1 ++ ": " ++ issue] }
      else if c.2.status == "warning" then
        { acc with warnings := acc.warnings ++ [c.1 ++ ": " ++ issue] }
      else acc) acc)
    { vr with overall_status := overall }

-- ===================================================================
-- EC2 instance-type Config rule (ec2_instance_types.py)
-- ===================================================================

/- The fields of a Config configuration item the rule reads:
`resourceType` and the `configuration` dictionary. -/
structure ConfigurationItem where
  resourceType : String
  configuration : List (String × String)
deriving DecidableEq, Repr

/- Python `str.split(',')`. -/
def splitComma : List Char → List (List Char)
  | [] => [[]]
  | c :: tl =>
    if c = ',' then [] :: splitComma tl
    else
      match splitComma tl with
      | h :: t => (c :: h) :: t
      | [] => [[c]]

/- `evaluate_compliance` of the EC2 instance-type rule. -/
def evaluate_compliance (configuration_item : ConfigurationItem)
    (rule_parameters : List (String × String)) : String :=
  if configuration_item.resourceType != "AWS::EC2::Instance" then "NOT_APPLICABLE"
  else
    let instance_type := configuration_item.configuration.lookup "instanceType"
    let approved_types :=
      splitComma ((rule_parameters.lookup "approvedInstanceTypes").getD
        "t2.micro,t3.micro,t3.small").data
    let inApproved :=
      match instance_type with
      | some t => approved_types.contains t.data
      | none => false
    if !inApproved then "NON_COMPLIANT" else "COMPLIANT"

/- The compliance predicate as the specification describes it: NOT_APPLICABLE
for non-EC2 resources, otherwise COMPLIANT exactly when the instance type is
a member of the comma-split approvedInstanceTypes parameter, defaulting to
the list t2.micro, t3.micro, t3.small. -/
def evaluate_compliance_spec (configuration_item : ConfigurationItem)
    (rule_parameters : List (String × String)) : String :=
  if configuration_item.resourceType ≠ "AWS::EC2::Instance" then "NOT_APPLICABLE"
  else
    let approved :=
      match rule_parameters.lookup "approvedInstanceTypes" with
      | none => ["t2.micro".data, "t3.micro".data, "t3.small".data]
      | some s => splitComma s.data
    match configuration_item.configuration.lookup "instanceType" with
    | some t => if t.data ∈ approved then "COMPLIANT" else "NON_COMPLIANT"
    | none => "NON_COMPLIANT"

-- ===================================================================
-- SimplePricingHelper (simple_pricing.py)
-- ===================================================================

/- The class constants. Numeric values are exact rationals. -/
def FREE_TIER_LIMITS : List (String × ℚ) :=
  [("EC2", 750), ("S3", 5), ("Lambda", 1000000), ("CodeBuild", 100)]

def FALLBACK_PRICING : List (String × ℚ) :=
  [("EC2", 104 / 10000), ("S3", 23 / 1000), ("Lambda", 2 / 10000000),
   ("CodeBuild", 5 / 1000), ("RDS", 17 / 1000), ("CloudWatch", 3 / 10)]

structure FreeTierStatus where
  limits : List (String × ℚ)
  note : String
  recommendation : String
deriving DecidableEq, Repr

/- `SimplePricingHelper.get_free_tier_status` (reads no input and no AWS
state). -/
def get_free_tier_status : FreeTierStatus :=
  { limits := FREE_TIER_LIMITS
    note := "This is a simplified Free Tier tracker. For detailed tracking, use the full pricing analysis system."
    recommendation := "Monitor your AWS billing dashboard for accurate usage tracking." }

/- Python `int()` on a float: truncation toward zero. -/
def pyInt (x : ℚ) : Int := if 0 ≤ x then ⌊x⌋ else ⌈x⌉

/- One service's contribution to `free_tier_cost` and `standard_cost` in
`estimate_lab_cost` (the per-service `breakdown` entry records the same two
numbers and is not modelled). -/
def serviceContrib (service : String) (duration_hours : ℚ) : ℚ × ℚ :=
  let service_upper := service.toUpper
  if service_upper == "EC2" then
    let hours_used := duration_hours
    let overage_hours := max 0 (hours_used - (FREE_TIER_LIMITS.lookup "EC2").getD 0)
    let free_cost : ℚ := 0
    let standard_cost := hours_used * (FALLBACK_PRICING.lookup "EC2").getD 0
    let overage_cost := overage_hours * (FALLBACK_PRICING.lookup "EC2").getD 0
    (free_cost + overage_cost, standard_cost)
  else if service_upper == "S3" then
    let storage_gb : ℚ := 1
    let overage_gb := max 0 (storage_gb - (FREE_TIER_LIMITS.lookup "S3").getD 0)
    let free_cost := overage_gb * (FALLBACK_PRICING.lookup "S3").getD 0 *
      (duration_hours / 24 / 30)
    let standard_cost := storage_gb * (FALLBACK_PRICING.lookup "S3").getD 0 *
      (duration_hours / 24 / 30)
    (free_cost, standard_cost)
  else if service_upper == "LAMBDA" then
    let requests : Int := pyInt (10000 * duration_hours)
    let overage_requests : Int := max 0 (requests - 1000000)
    let free_cost := (overage_requests : ℚ) * (FALLBACK_PRICING.lookup "Lambda").getD 0
    let standard_cost := (requests : ℚ) * (FALLBACK_PRICING.lookup "Lambda").getD 0
    (free_cost, standard_cost)
  else if service_upper == "CODEBUILD" then
    let build_minutes : ℚ := 30
    let overage_minutes := max 0 (build_minutes -
      (FREE_TIER_LIMITS.lookup "CodeBuild").getD 0)
    let free_cost := overage_minutes * (FALLBACK_PRICING.lookup "CodeBuild").getD 0
    let standard_cost := build_minutes * (FALLBACK_PRICING.lookup "CodeBuild").getD 0
    (free_cost, standard_cost)
  else
    match FALLBACK_PRICING.lookup service_upper with
    | some price => (duration_hours * price, duration_hours * price)
    | none => (0, 0)

/- The running `free_tier_cost` / `standard_cost` totals over the service
loop, before rounding. -/
def costAccum (services : List String) (duration_hours : ℚ) : ℚ × ℚ :=
  services.foldl (fun acc s =>
    let c := serviceContrib s duration_hours
    (acc.1 + c.1, acc.2 + c.2)) (0, 0)

/- The cost fields of the result dictionary of `estimate_lab_cost`. -/
structure CostEstimate where
  duration_hours : ℚ
  free_tier_cost : ℚ
  standard_cost : ℚ
  potential_savings : ℚ
deriving DecidableEq, Repr

/- `SimplePricingHelper.estimate_lab_cost`: accumulate per-service costs,
compute the savings, then round all three to 4 decimal places. -/
def estimate_lab_cost (services : List String) (duration_hours : ℚ) :
    CostEstimate :=
  let acc := costAccum services duration_hours
  { duration_hours := duration_hours
    free_tier_cost := round4 acc.1
    standard_cost := round4 acc.2
    potential_savings := round4 (acc.2 - acc.1) }

-- ===================================================================
-- CircuitBreakerTester (test-circuit-breaker.py)
-- ===================================================================

/- Compact serialization, `json.dumps` with its default separators
`', '` and `': '`. -/
mutual
def cdumpVal : Json → List Char
  | .jnull => ['n', 'u', 'l', 'l']
  | .jbool true => ['t', 'r', 'u', 'e']
  | .jbool false => ['f', 'a', 'l', 's', 'e']
  | .jnum m e => dumpNum m e
  | .jstr s => dumpStr s
  | .jarr .nil => ['[', ']']
  | .jarr (.cons v tl) => '[' :: (cdumpVal v ++ cdumpSep tl) ++ [']']
  | .jobj .nil => ['{', '}']
  | .jobj (.cons k v tl) =>
    '{' :: (dumpStr k ++ ':' :: ' ' :: (cdumpVal v ++ cdumpMSep tl)) ++ ['}']
def cdumpSep : JsonList → List Char
  | .nil => []
  | .cons v tl => ',' :: ' ' :: (cdumpVal v ++ cdumpSep tl)
def cdumpMSep : JsonMembers → List Char
  | .nil => []
  | .cons k v tl =>
    ',' :: ' ' :: (dumpStr k ++ ':' :: ' ' :: (cdumpVal v ++ cdumpMSep tl))
end

def cdumps (v : Json) : List Char := cdumpVal v

/- Key membership in a parsed JSON object, last-binding-wins lookup as in a
Python dict built by `json.loads`. -/
def mHasKey : JsonMembers → List Char → Bool
  | .nil, _ => false
  | .cons k _ tl, needle => k == needle || mHasKey tl needle

def mLookup : JsonMembers → List Char → Option Json
  | .nil, _ => none
  | .cons k v tl, needle =>
    match mLookup tl needle with
    | some r => some r
    | none => if k == needle then some v else none

def listHasStr : JsonList → List Char → Bool
  | .nil, _ => false
  | .cons v tl, needle =>
    (match v with | .jstr s => s == needle | _ => false) || listHasStr tl needle

/- Python `'body' in result` on an arbitrary parsed JSON value: key test on a
dict, membership on a list, substring test on a string; `.error` where
CPython raises `TypeError`. -/
def jsonContainsKey (needle : List Char) : Json → Except Unit Bool
  | .jobj ms => .ok (mHasKey ms needle)
  | .jarr l => .ok (listHasStr l needle)
  | .jstr s => .ok (decide (needle <:+: s))
  | _ => .error ()

/- Python `result['body']`: dict lookup; `.error` where CPython raises
(`KeyError`, or `TypeError` on a non-dict). -/
def jsonGetKey (needle : List Char) : Json → Except Unit Json
  | .jobj ms =>
    match mLookup ms needle with
    | some v => .ok v
    | none => .error ()
  | _ => .error ()

/- The Lambda invocation: function name and request payload in, either the
response payload or the exception text `str(e)` out. -/
def InvokeOracle := String → List Char → Except (List Char) (List Char)

/- The payload dictionary `call_circuit_breaker` builds (`success` added
only when not `None`). -/
def cbPayload (service_name action : List Char) (success : Option Bool) : Json :=
  .jobj (.cons "service_name".data (.jstr service_name)
    (.cons "action".data (.jstr action)
      (match success with
       | none => .nil
       | some b => .cons "success".data (.jbool b) .nil)))

/- The `\x7b'error': str(e)\x7d` dictionary of the `except` clause. -/
def cbErrDict (msg : List Char) : Json := .jobj (.cons "error".data (.jstr msg) .nil)

/- `CircuitBreakerTester.call_circuit_breaker`: invoke the
`circuit-breaker-manager` Lambda with the payload, parse the response, return
the parsed `body` when present; any exception in the `try` block yields the
error dictionary (the model abstracts the message text of exceptions CPython
itself raises). -/
def call_circuit_breaker (invoke : InvokeOracle) (service_name action : List Char)
    (success : Option Bool) : Json :=
  match invoke "circuit-breaker-manager" (cdumps (cbPayload service_name action success)) with
  | .error e => cbErrDict e
  | .ok p =>
    match loads p with
    | none => cbErrDict "JSONDecodeError".data
    | some result =>
      match jsonContainsKey "body".data result with
      | .error _ => cbErrDict "TypeError".data
      | .ok true =>
        match jsonGetKey "body".data result with
        | .error _ => cbErrDict "TypeError".data
        | .ok (.jstr b) =>
          match loads b with
          | some inner => inner
          | none => cbErrDict "JSONDecodeError".data
        | .ok _ => cbErrDict "TypeError".data
      | .ok false => result

/- The four public operations, each a direct delegation. -/
def check_circuit_state (invoke : InvokeOracle) (service_name : List Char) : Json :=
  call_circuit_breaker invoke service_name "check".data none

def record_success (invoke : InvokeOracle) (service_name : List Char) : Json :=
  call_circuit_breaker invoke service_name "record".data (some true)

def record_failure (invoke : InvokeOracle) (service_name : List Char) : Json :=
  call_circuit_breaker invoke service_name "record".data (some false)

def reset_circuit (invoke : InvokeOracle) (service_name : List Char) : Json :=
  call_circuit_breaker invoke service_name "reset".data none

/- The session-record invariant as the specification states it: the status
enumeration, ISO-format timestamps, and (by the typing of `Session`) numeric
costs in a flat map from session-id string to record. -/
def statusEnum : List String :=
  ["running", "stopped", "completed", "cleaned_up", "cleanup_failed"]

def SessionInv (s : Session) : Prop :=
  s.status ∈ statusEnum ∧
  isIsoTimestamp s.start_time = true ∧
  (∀ t, s.end_time = some t → isIsoTimestamp t = true) ∧
  (∀ t, s.cleanup_time = some t → isIsoTimestamp t = true)

def SessionsInv (m : List (String × Session)) : Prop := ∀ p ∈ m, SessionInv p.2

-- ===================================================================
-- THEOREMS
-- ===================================================================

theorem dVal_dChar {d : Nat} (h : d < 10) : dVal (dChar d) = some d := by
  interval_cases d <;> rfl

theorem hexVal_hexChar {d : Nat} (h : d < 16) : hexVal (hexChar d) = some d := by
  interval_cases d <;> rfl

theorem hex4_toHex4 {n : Nat} (h : n < 0x10000) :
    hex4 (hexChar (n / 4096 % 16)) (hexChar (n / 256 % 16))
      (hexChar (n / 16 % 16)) (hexChar (n % 16)) = some n := by
  simp only [hex4]
  rw [hexVal_hexChar (by omega), hexVal_hexChar (by omega),
    hexVal_hexChar (by omega), hexVal_hexChar (by omega)]
  simp only [Option.some.injEq]
  omega

theorem charOfNat_toNat (c : Char) : charOfNat c.toNat = some c := by
  have hv : c.toNat.isValidChar := c.valid
  simp only [charOfNat, hv, dite_true, Option.some.injEq]
  apply Char.eq_of_val_eq
  apply UInt32.eq_of_toBitVec_eq
  apply BitVec.eq_of_toNat_eq
  simp [Char.ofNatAux, Char.toNat, UInt32.toNat]

theorem isDigitCh_dChar {d : Nat} (h : d < 10) : isDigitCh (dChar d) = true := by
  simp [isDigitCh, dVal_dChar h]

theorem dVal_eq_cases {c : Char} {d : Nat} (h : dVal c = some d) :
    (c = '0' ∧ d = 0) ∨ (c = '1' ∧ d = 1) ∨ (c = '2' ∧ d = 2) ∨ (c = '3' ∧ d = 3) ∨
    (c = '4' ∧ d = 4) ∨ (c = '5' ∧ d = 5) ∨ (c = '6' ∧ d = 6) ∨ (c = '7' ∧ d = 7) ∨
    (c = '8' ∧ d = 8) ∨ (c = '9' ∧ d = 9) := by
  unfold dVal at h
  split at h <;> simp_all

theorem digit_plain {c : Char} (h : isDigitCh c = true) :
    isWsCh c = false ∧ c ≠ '.' ∧ c ≠ 'e' ∧ c ≠ 'E' ∧ c ≠ '{' ∧ c ≠ '[' ∧ c ≠ '"' ∧
    c ≠ 't' ∧ c ≠ 'f' ∧ c ≠ 'n' ∧ c ≠ ']' ∧ c ≠ '}' ∧ c ≠ ',' ∧ c ≠ '-' ∧ c ≠ '\\' ∧
    0x20 ≤ c.toNat ∧ c.toNat < 0x7f := by
  simp only [isDigitCh, Option.isSome_iff_exists] at h
  obtain ⟨d, hd⟩ := h
  rcases dVal_eq_cases hd with ⟨h, -⟩ | ⟨h, -⟩ | ⟨h, -⟩ | ⟨h, -⟩ | ⟨h, -⟩ | ⟨h, -⟩ |
    ⟨h, -⟩ | ⟨h, -⟩ | ⟨h, -⟩ | ⟨h, -⟩ <;> subst h <;> exact ⟨rfl, by decide⟩

theorem natDigits_digits (n : Nat) : ∀ c ∈ natDigits n, isDigitCh c = true := by
  induction n using Nat.strong_induction_on with
  | _ n ih =>
    rw [natDigits]
    split
    · intro c hc
      simp only [List.mem_singleton] at hc
      subst hc
      exact isDigitCh_dChar (by omega)
    · intro c hc
      rcases List.mem_append.mp hc with h1 | h2
      · exact ih (n / 10) (Nat.div_lt_self (by omega) (by omega)) c h1
      · simp only [List.mem_singleton] at h2
        subst h2
        exact isDigitCh_dChar (Nat.mod_lt _ (by omega))

theorem natDigits_ne_nil (n : Nat) : natDigits n ≠ [] := by
  rw [natDigits]
  split
  · simp
  · simp

theorem digitsVal_natDigits (n : Nat) : digitsVal (natDigits n) = n := by
  induction n using Nat.strong_induction_on with
  | _ n ih =>
    rw [natDigits]
    split
    · next h =>
      simp [digitsVal, dVal_dChar h]
    · next h =>
      have := ih (n / 10) (Nat.div_lt_self (by omega) (by omega))
      simp only [digitsVal, List.foldl_append, List.foldl_cons, List.foldl_nil] at *
      rw [this, dVal_dChar (Nat.mod_lt _ (by omega))]
      simp
      omega

theorem natDigits_head_pos {n : Nat} (h : 1 ≤ n) :
    ∃ c ds, natDigits n = c :: ds ∧ isDigitCh c = true ∧ c ≠ '0' := by
  induction n using Nat.strong_induction_on with
  | _ n ih =>
    rw [natDigits]
    split
    · next hlt =>
      refine ⟨dChar n, [], rfl, isDigitCh_dChar hlt, ?_⟩
      interval_cases n <;> simp_all <;> decide
    · next hge =>
      obtain ⟨c, ds, hcds, hdig, hne⟩ :=
        ih (n / 10) (Nat.div_lt_self (by omega) (by omega)) (by omega)
      exact ⟨c, ds ++ [dChar (n % 10)], by rw [hcds]; simp, hdig, hne⟩

theorem natDigits_len_le {n e : Nat} (he : 1 ≤ e) (h : n < 10 ^ e) :
    (natDigits n).length ≤ e := by
  induction n using Nat.strong_induction_on generalizing e with
  | _ n ih =>
    rw [natDigits]
    split
    · simpa using he
    · next hge =>
      have he2 : 2 ≤ e := by
        by_contra hc
        have : e = 1 := by omega
        subst this
        simp at h
        omega
      have hdiv : n / 10 < 10 ^ (e - 1) := by
        rw [Nat.div_lt_iff_lt_mul (by omega)]
        calc n < 10 ^ e := h
        _ = 10 ^ (e - 1) * 10 := by
            rw [← pow_succ]
            congr 1
            omega
      have := ih (n / 10) (Nat.div_lt_self (by omega) (by omega)) (by omega) hdiv
      simp only [List.length_append, List.length_singleton]
      omega

theorem digitsVal_replicate_zero (k : Nat) (ds : List Char) :
    digitsVal (List.replicate k '0' ++ ds) = digitsVal ds := by
  induction k with
  | zero => simp
  | succ k ihk =>
    simp only [List.replicate_succ, List.cons_append, digitsVal, List.foldl_cons] at *
    simpa [dVal] using ihk

theorem takeDigits_append {ds rest : List Char} (hds : ∀ c ∈ ds, isDigitCh c = true)
    (hrest : ∀ c, rest.head? = some c → isDigitCh c = false) :
    takeDigits (ds ++ rest) = (ds, rest) := by
  induction ds with
  | nil =>
    simp only [List.nil_append]
    cases rest with
    | nil => rfl
    | cons c tl =>
      have := hrest c rfl
      simp [takeDigits, this]
  | cons c tl ihtl =>
    have hc := hds c (by simp)
    have := ihtl (fun x hx => hds x (by simp [hx]))
    simp [takeDigits, hc, this]

theorem skipWs_cons_not_ws {c : Char} {xs : List Char} (h : isWsCh c = false) :
    skipWs (c :: xs) = c :: xs := by
  simp [skipWs, h]

theorem skipWs_ws_append {w xs : List Char} (h : ∀ c ∈ w, isWsCh c = true) :
    skipWs (w ++ xs) = skipWs xs := by
  induction w with
  | nil => simp
  | cons c tl ihtl =>
    have hc := h c (by simp)
    simp only [List.cons_append, skipWs, hc, if_true]
    exact ihtl (fun x hx => h x (by simp [hx]))

theorem ind_ws (lvl : Nat) : ∀ c ∈ ind lvl, isWsCh c = true := by
  intro c hc
  simp only [ind, List.mem_replicate] at hc
  rw [hc.2]
  rfl

theorem char_valid (c : Char) :
    c.toNat < 0xd800 ∨ (0xdfff < c.toNat ∧ c.toNat < 0x110000) := c.valid

theorem decodeEsc_simple {e : Char} (hne : ¬ e = 'u') (rest : List Char) :
    decodeEsc (e :: rest) = (escSimple e).map (fun ch => (ch, rest)) := by
  simp only [decodeEsc]
  rw [if_neg hne]

theorem pstr_quote (rest : List Char) : pstr ('"' :: rest) = some ([], rest) := by
  simp only [pstr]
  rw [if_pos trivial]

theorem pstr_backslash_some {rest rest2 : List Char} {ch : Char}
    (h : decodeEsc rest = some (ch, rest2)) :
    pstr ('\\' :: rest) = (pstr rest2).map (fun p => (ch :: p.1, p.2)) := by
  simp only [pstr]
  rw [if_neg (show ¬ ('\\' : Char) = '"' by decide), if_pos trivial]
  split
  · next heq => rw [h] at heq; cases heq
  · next ch2 rest3 heq =>
    rw [h] at heq
    injection heq with heq2
    injection heq2 with hc hr
    subst hc
    subst hr
    rfl

theorem pstr_plain {c : Char} (h1 : ¬ c = '"') (h2 : ¬ c = '\\')
    (h3 : ¬ c.toNat < 0x20) (rest : List Char) :
    pstr (c :: rest) = (pstr rest).map (fun p => (c :: p.1, p.2)) := by
  simp only [pstr]
  rw [if_neg h1, if_neg h2, if_neg h3]

theorem decodeEsc_u1 {a b c2 d : Char} {n : Nat} (tail : List Char)
    (hhex : hex4 a b c2 d = some n) (hns : ¬(0xd800 ≤ n ∧ n ≤ 0xdbff)) :
    decodeEsc ('u' :: a :: b :: c2 :: d :: tail) =
      (charOfNat n).map (fun ch => (ch, tail)) := by
  simp only [decodeEsc]
  rw [if_pos trivial, hhex]
  split
  · next heq => cases heq
  · next n2 heq =>
    injection heq with hn2
    subst hn2
    rw [if_neg hns]

theorem decodeEsc_u2 {a b c2 d a2 b2 c3 d2 : Char} {n m : Nat} (tail : List Char)
    (hhex1 : hex4 a b c2 d = some n) (hhex2 : hex4 a2 b2 c3 d2 = some m)
    (hn : 0xd800 ≤ n ∧ n ≤ 0xdbff) (hm : 0xdc00 ≤ m ∧ m ≤ 0xdfff) :
    decodeEsc ('u' :: a :: b :: c2 :: d :: '\\' :: 'u' :: a2 :: b2 :: c3 :: d2 :: tail) =
      (charOfNat (0x10000 + (n - 0xd800) * 0x400 + (m - 0xdc00))).map
        (fun ch => (ch, tail)) := by
  simp only [decodeEsc]
  rw [if_pos trivial, hhex1]
  split
  · next heq => cases heq
  · next n2 heq =>
    injection heq with hn2
    subst hn2
    rw [if_pos hn]
    rw [if_pos (show True ∧ True from ⟨trivial, trivial⟩)]
    rw [hhex2]
    split
    · next heq2 => cases heq2
    · next m2 heq2 =>
      injection heq2 with hm2
      subst hm2
      rw [if_pos hm]

theorem decodeEsc_uLow {c : Char} (tail : List Char) (h8 : c.toNat < 0xd800) :
    decodeEsc ('u' :: (toHex4 c.toNat ++ tail)) = some (c, tail) := by
  simp only [toHex4, List.cons_append, List.nil_append]
  rw [decodeEsc_u1 tail (hex4_toHex4 (by omega)) (by omega), charOfNat_toNat]
  rfl

theorem decodeEsc_uHigh {c : Char} (tail : List Char) (h9 : 0xdfff < c.toNat)
    (h10 : c.toNat < 0x10000) :
    decodeEsc ('u' :: (toHex4 c.toNat ++ tail)) = some (c, tail) := by
  simp only [toHex4, List.cons_append, List.nil_append]
  rw [decodeEsc_u1 tail (hex4_toHex4 (by omega)) (by omega), charOfNat_toNat]
  rfl

theorem decodeEsc_surrogate {c : Char} (tail : List Char) (h10 : ¬ c.toNat < 0x10000) :
    decodeEsc ('u' :: (toHex4 (0xd800 + (c.toNat - 0x10000) / 0x400) ++
      ('\\' :: 'u' :: (toHex4 (0xdc00 + (c.toNat - 0x10000) % 0x400) ++ tail)))) =
      some (c, tail) := by
  have hval := char_valid c
  have hqlt : (c.toNat - 0x10000) / 0x400 < 0x400 := by
    have : c.toNat - 0x10000 < 0x100000 := by omega
    omega
  have hrlt : (c.toNat - 0x10000) % 0x400 < 0x400 := Nat.mod_lt _ (by omega)
  simp only [toHex4, List.cons_append, List.nil_append]
  rw [decodeEsc_u2 tail (hex4_toHex4 (by omega)) (hex4_toHex4 (by omega))
    (by omega) (by omega)]
  have hcomb : 0x10000 + (0xd800 + (c.toNat - 0x10000) / 0x400 - 0xd800) * 0x400 +
      (0xdc00 + (c.toNat - 0x10000) % 0x400 - 0xdc00) = c.toNat := by
    have := Nat.div_add_mod (c.toNat - 0x10000) 0x400
    omega
  rw [hcomb, charOfNat_toNat]
  rfl

theorem pstr_escapeChar (c : Char) (tail : List Char) :
    pstr (escapeChar c ++ tail) = (pstr tail).map (fun p => (c :: p.1, p.2)) := by
  by_cases h1 : c = '"'
  · subst h1
    rw [show escapeChar '"' ++ tail = '\\' :: '"' :: tail from rfl,
      pstr_backslash_some (by rw [decodeEsc_simple (by decide)]; rfl)]
  by_cases h2 : c = '\\'
  · subst h2
    rw [show escapeChar '\\' ++ tail = '\\' :: '\\' :: tail from rfl,
      pstr_backslash_some (by rw [decodeEsc_simple (by decide)]; rfl)]
  by_cases h3 : c = Char.ofNat 8
  · subst h3
    rw [show escapeChar (Char.ofNat 8) ++ tail = '\\' :: 'b' :: tail from rfl,
      pstr_backslash_some (by rw [decodeEsc_simple (by decide)]; rfl)]
  by_cases h4 : c = Char.ofNat 12
  · subst h4
    rw [show escapeChar (Char.ofNat 12) ++ tail = '\\' :: 'f' :: tail from rfl,
      pstr_backslash_some (by rw [decodeEsc_simple (by decide)]; rfl)]
  by_cases h5 : c = '\n'
  · subst h5
    rw [show escapeChar '\n' ++ tail = '\\' :: 'n' :: tail from rfl,
      pstr_backslash_some (by rw [decodeEsc_simple (by decide)]; rfl)]
  by_cases h6 : c = Char.ofNat 13
  · subst h6
    rw [show escapeChar (Char.ofNat 13) ++ tail = '\\' :: 'r' :: tail from rfl,
      pstr_backslash_some (by rw [decodeEsc_simple (by decide)]; rfl)]
  by_cases h7 : c = '\t'
  · subst h7
    rw [show escapeChar '\t' ++ tail = '\\' :: 't' :: tail from rfl,
      pstr_backslash_some (by rw [decodeEsc_simple (by decide)]; rfl)]
  by_cases h8 : c.toNat < 0x20
  · have hesc : escapeChar c = '\\' :: 'u' :: toHex4 c.toNat := by
      simp [escapeChar, h1, h2, h3, h4, h5, h6, h7, h8]
    rw [hesc, show ('\\' :: 'u' :: toHex4 c.toNat) ++ tail =
      '\\' :: 'u' :: (toHex4 c.toNat ++ tail) from rfl]
    rw [pstr_backslash_some (decodeEsc_uLow tail (by omega))]
  by_cases h9 : c.toNat < 0x7f
  · have hesc : escapeChar c = [c] := by
      simp [escapeChar, h1, h2, h3, h4, h5, h6, h7, h8, h9]
    rw [hesc]
    simp only [List.cons_append, List.nil_append]
    exact pstr_plain h1 h2 h8 tail
  by_cases h10 : c.toNat < 0x10000
  · have hesc : escapeChar c = '\\' :: 'u' :: toHex4 c.toNat := by
      simp [escapeChar, h1, h2, h3, h4, h5, h6, h7, h8, h9, h10]
    have hval := char_valid c
    rw [hesc, show ('\\' :: 'u' :: toHex4 c.toNat) ++ tail =
      '\\' :: 'u' :: (toHex4 c.toNat ++ tail) from rfl]
    rcases hval with hlt | ⟨hgt, _⟩
    · rw [pstr_backslash_some (decodeEsc_uLow tail hlt)]
    · rw [pstr_backslash_some (decodeEsc_uHigh tail hgt h10)]
  · have hesc : escapeChar c =
        '\\' :: 'u' :: toHex4 (0xd800 + (c.toNat - 0x10000) / 0x400) ++
          '\\' :: 'u' :: toHex4 (0xdc00 + (c.toNat - 0x10000) % 0x400) := by
      simp [escapeChar, h1, h2, h3, h4, h5, h6, h7, h8, h9, h10]
    rw [hesc, show ('\\' :: 'u' :: toHex4 (0xd800 + (c.toNat - 0x10000) / 0x400) ++
        '\\' :: 'u' :: toHex4 (0xdc00 + (c.toNat - 0x10000) % 0x400)) ++ tail =
        '\\' :: 'u' :: (toHex4 (0xd800 + (c.toNat - 0x10000) / 0x400) ++
        ('\\' :: 'u' :: (toHex4 (0xdc00 + (c.toNat - 0x10000) % 0x400) ++ tail))) by simp]
    rw [pstr_backslash_some (decodeEsc_surrogate tail h10)]


theorem pstr_dumpStr (s rest : List Char) :
    pstr (escBody s ++ '"' :: rest) = some (s, rest) := by
  induction s with
  | nil =>
    simp only [escBody, List.nil_append]
    exact pstr_quote rest
  | cons c cs ih =>
    simp only [escBody, List.append_assoc]
    rw [pstr_escapeChar, ih]
    rfl

theorem padDigits_digits (e f : Nat) : ∀ c ∈ padDigits e f, isDigitCh c = true := by
  intro c hc
  rcases List.mem_append.mp hc with h1 | h2
  · rw [(List.mem_replicate.mp h1).2]
    rfl
  · exact natDigits_digits f c h2

theorem padDigits_ne_nil (e f : Nat) : padDigits e f ≠ [] := by
  intro h
  exact natDigits_ne_nil f (List.append_eq_nil.mp h).2

theorem padDigits_len {e f : Nat} (he : 1 ≤ e) (hf : f < 10 ^ e) :
    (padDigits e f).length = e := by
  have := natDigits_len_le he hf
  simp only [padDigits, List.length_append, List.length_replicate]
  omega

theorem digitsVal_padDigits (e f : Nat) : digitsVal (padDigits e f) = f := by
  rw [padDigits, digitsVal_replicate_zero, digitsVal_natDigits]

theorem natDigits_zero : natDigits 0 = ['0'] := by
  rw [natDigits]
  simp
  rfl

theorem pint_natDigits {n : Nat} {rest : List Char}
    (hrest : ∀ c, rest.head? = some c → isDigitCh c = false) :
    pint (natDigits n ++ rest) = some (n, rest) := by
  by_cases h0 : n = 0
  · subst h0
    rw [natDigits_zero]
    simp only [List.cons_append, List.nil_append, pint]
    rw [if_pos trivial]
  · obtain ⟨c, ds, hcds, hdig, hne⟩ := natDigits_head_pos (Nat.one_le_iff_ne_zero.mpr h0)
    have hds : ∀ x ∈ ds, isDigitCh x = true := by
      intro x hx
      exact natDigits_digits n x (by rw [hcds]; exact List.mem_cons_of_mem c hx)
    rw [hcds]
    simp only [List.cons_append, pint]
    rw [if_neg hne, if_pos hdig]
    rw [takeDigits_append hds hrest]
    have : digitsVal (c :: ds) = n := by rw [← hcds, digitsVal_natDigits]
    simp [this]

theorem pfrac_skip {xs : List Char} (h : ∀ c, xs.head? = some c → ¬ c = '.') :
    pfrac xs = some (0, 0, xs) := by
  cases xs with
  | nil => rfl
  | cons c t =>
    simp only [pfrac]
    rw [if_neg (h c rfl)]

theorem pfrac_dot {f e : Nat} {rest : List Char} (he : 1 ≤ e) (hf : f < 10 ^ e)
    (hrest : ∀ c, rest.head? = some c → isDigitCh c = false) :
    pfrac ('.' :: (padDigits e f ++ rest)) = some (f, e, rest) := by
  simp only [pfrac]
  rw [if_pos trivial]
  rw [takeDigits_append (padDigits_digits e f) hrest]
  rw [if_neg (by simpa using padDigits_ne_nil e f)]
  rw [digitsVal_padDigits, padDigits_len he hf]

theorem pexp_skip {xs : List Char} (h : ∀ c, xs.head? = some c → ¬ c = 'e' ∧ ¬ c = 'E') :
    pexp xs = some (0, xs) := by
  cases xs with
  | nil => rfl
  | cons c t =>
    simp only [pexp]
    rw [if_neg (by
      intro hor
      rcases hor with h1 | h2
      · exact (h c rfl).1 h1
      · exact (h c rfl).2 h2)]

theorem delimHead_not_digit {rest : List Char} (h : delimHead rest) :
    ∀ c, rest.head? = some c → isDigitCh c = false :=
  fun c hc => (h c hc).1

theorem pnumAbs_dump (n : Nat) (e : Nat) {rest : List Char} (h : delimHead rest) :
    pnumAbs ((if e = 0 then natDigits n
      else natDigits (n / 10 ^ e) ++ '.' :: padDigits e (n % 10 ^ e)) ++ rest) =
      some (.jnum n e, rest) := by
  by_cases he : e = 0
  · subst he
    rw [if_pos rfl]
    simp only [pnumAbs]
    simp only [pint_natDigits (delimHead_not_digit h)]
    simp only [pfrac_skip (fun c hc => (h c hc).2.1)]
    simp only [pexp_skip (fun c hc => ⟨(h c hc).2.2.1, (h c hc).2.2.2⟩)]
    norm_num
  · rw [if_neg he]
    have he1 : 1 ≤ e := by omega
    have hflt : n % 10 ^ e < 10 ^ e := Nat.mod_lt _ (by positivity)
    simp only [List.append_assoc, List.cons_append]
    simp only [pnumAbs]
    simp only [pint_natDigits (show ∀ c, ('.' :: (padDigits e (n % 10 ^ e) ++ rest)).head? =
      some c → isDigitCh c = false by intro c hc; cases hc; rfl)]
    simp only [pfrac_dot he1 hflt (delimHead_not_digit h)]
    simp only [pexp_skip (fun c hc => ⟨(h c hc).2.2.1, (h c hc).2.2.2⟩)]
    rw [if_neg (by omega)]
    have hint : n / 10 ^ e * 10 ^ e + n % 10 ^ e = n := by
      rw [Nat.mul_comm]
      exact Nat.div_add_mod n (10 ^ e)
    simp only [Option.some.injEq, Prod.mk.injEq, Json.jnum.injEq]
    refine ⟨⟨?_, by omega⟩, trivial⟩
    push_cast
    exact_mod_cast congrArg (fun x : Nat => (x : Int)) hint

theorem pnum_dump (m : Int) (e : Nat) {rest : List Char} (h : delimHead rest) :
    pnum (dumpNum m e ++ rest) = some (.jnum m e, rest) := by
  by_cases hm : m < 0
  · simp only [dumpNum, if_pos hm, List.cons_append, List.nil_append]
    simp only [pnum]
    rw [if_pos trivial]
    rw [pnumAbs_dump m.natAbs e h]
    have habs : -|m| = m := by
      rw [abs_of_neg hm, neg_neg]
    simp [negJson, habs]
  · have habs : (m.natAbs : Int) = m := by omega
    have hne : dumpNum m e ++ rest =
        (if e = 0 then natDigits m.natAbs
          else natDigits (m.natAbs / 10 ^ e) ++ '.' :: padDigits e (m.natAbs % 10 ^ e)) ++
          rest := by
      simp [dumpNum, hm]
    rw [hne]
    have hstep := pnumAbs_dump m.natAbs e h
    have hhead : ∃ c t, (if e = 0 then natDigits m.natAbs
        else natDigits (m.natAbs / 10 ^ e) ++ '.' :: padDigits e (m.natAbs % 10 ^ e)) ++
        rest = c :: t ∧ isDigitCh c = true := by
      by_cases he : e = 0
      · subst he
        simp only [if_pos]
        rcases hd : natDigits m.natAbs with _ | ⟨c, t⟩
        · exact absurd hd (natDigits_ne_nil _)
        · refine ⟨c, t ++ rest, by simp, ?_⟩
          exact natDigits_digits _ c (by rw [hd]; simp)
      · rw [if_neg he]
        rcases hd : natDigits (m.natAbs / 10 ^ e) with _ | ⟨c, t⟩
        · exact absurd hd (natDigits_ne_nil _)
        · refine ⟨c, t ++ ('.' :: padDigits e (m.natAbs % 10 ^ e) ++ rest), by simp, ?_⟩
          exact natDigits_digits _ c (by rw [hd]; simp)
    obtain ⟨c, t, hct, hdig⟩ := hhead
    rw [hct]
    simp only [pnum]
    rw [if_neg (by
      intro hcm
      subst hcm
      simp [isDigitCh, dVal] at hdig)]
    rw [← hct, hstep, habs]

theorem pval_ws {w xs : List Char} (hw : ∀ c ∈ w, isWsCh c = true) (fuel : Nat) :
    pval fuel (w ++ xs) = pval fuel xs := by
  cases fuel with
  | zero => rfl
  | succ f =>
    simp only [pval]
    rw [skipWs_ws_append hw]

theorem ws_nl_ind (lvl : Nat) : ∀ c ∈ '\n' :: ind lvl, isWsCh c = true := by
  intro c hc
  rcases List.mem_cons.mp hc with h | h
  · rw [h]; rfl
  · exact ind_ws lvl c h

theorem pval_null (f : Nat) (rest : List Char) :
    pval (f + 1) ('n' :: 'u' :: 'l' :: 'l' :: rest) = some (.jnull, rest) := by
  simp only [pval]
  rw [skipWs_cons_not_ws (by decide)]
  simp [lit3]

theorem pval_true (f : Nat) (rest : List Char) :
    pval (f + 1) ('t' :: 'r' :: 'u' :: 'e' :: rest) = some (.jbool true, rest) := by
  simp only [pval]
  rw [skipWs_cons_not_ws (by decide)]
  simp [lit3]

theorem pval_false (f : Nat) (rest : List Char) :
    pval (f + 1) ('f' :: 'a' :: 'l' :: 's' :: 'e' :: rest) = some (.jbool false, rest) := by
  simp only [pval]
  rw [skipWs_cons_not_ws (by decide)]
  simp [lit4]

theorem pval_cons (f : Nat) {c : Char} (hws : isWsCh c = false) (rest : List Char) :
    pval (f + 1) (c :: rest) =
      (if c = '{' then pmembers0 f rest
      else if c = '[' then pitems0 f rest
      else if c = '"' then (pstr rest).map (fun p => (.jstr p.1, p.2))
      else if c = 't' then lit3 'r' 'u' 'e' (.jbool true) rest
      else if c = 'f' then lit4 'a' 'l' 's' 'e' (.jbool false) rest
      else if c = 'n' then lit3 'u' 'l' 'l' .jnull rest
      else pnum (c :: rest)) := by
  simp only [pval]
  rw [skipWs_cons_not_ws hws]

theorem pval_str (f : Nat) (s rest : List Char) :
    pval (f + 1) (dumpStr s ++ rest) = some (.jstr s, rest) := by
  simp only [dumpStr, List.cons_append, List.append_assoc]
  rw [pval_cons f (by decide)]
  rw [if_neg (by decide), if_neg (by decide), if_pos rfl]
  rw [show escBody s ++ '"' :: ([] ++ rest) = escBody s ++ '"' :: rest by simp]
  rw [pstr_dumpStr]
  rfl

theorem dumpNum_head (m : Int) (e : Nat) :
    ∃ c s, dumpNum m e = c :: s ∧ (c = '-' ∨ isDigitCh c = true) := by
  by_cases hm : m < 0
  · refine ⟨'-', (if e = 0 then natDigits m.natAbs
      else natDigits (m.natAbs / 10 ^ e) ++ '.' :: padDigits e (m.natAbs % 10 ^ e)),
      by simp [dumpNum, hm], Or.inl rfl⟩
  · simp only [dumpNum, if_neg hm, List.nil_append]
    by_cases he : e = 0
    · subst he
      rw [if_pos rfl]
      rcases hd : natDigits m.natAbs with _ | ⟨c, t⟩
      · exact absurd hd (natDigits_ne_nil _)
      · exact ⟨c, t, rfl, Or.inr (natDigits_digits _ c (by rw [hd]; simp))⟩
    · rw [if_neg he]
      rcases hd : natDigits (m.natAbs / 10 ^ e) with _ | ⟨c, t⟩
      · exact absurd hd (natDigits_ne_nil _)
      · exact ⟨c, t ++ '.' :: padDigits e (m.natAbs % 10 ^ e), by simp,
          Or.inr (natDigits_digits _ c (by rw [hd]; simp))⟩

theorem pval_num (f : Nat) (m : Int) (e : Nat) {rest : List Char} (h : delimHead rest) :
    pval (f + 1) (dumpNum m e ++ rest) = some (.jnum m e, rest) := by
  obtain ⟨c, s, hcs, hc⟩ := dumpNum_head m e
  have hfacts : isWsCh c = false ∧ ¬ c = '{' ∧ ¬ c = '[' ∧ ¬ c = '"' ∧ ¬ c = 't' ∧
      ¬ c = 'f' ∧ ¬ c = 'n' := by
    rcases hc with h1 | h2
    · subst h1; refine ⟨rfl, ?_⟩; refine ⟨by decide, by decide, by decide, by decide,
        by decide, by decide⟩
    · have := digit_plain h2
      exact ⟨this.1, this.2.2.2.2.1, this.2.2.2.2.2.1, this.2.2.2.2.2.2.1,
        this.2.2.2.2.2.2.2.1, this.2.2.2.2.2.2.2.2.1, this.2.2.2.2.2.2.2.2.2.1⟩
  rw [hcs]
  simp only [List.cons_append]
  rw [pval_cons f hfacts.1]
  rw [if_neg hfacts.2.1, if_neg hfacts.2.2.1, if_neg hfacts.2.2.2.1,
    if_neg hfacts.2.2.2.2.1, if_neg hfacts.2.2.2.2.2.1, if_neg hfacts.2.2.2.2.2.2]
  rw [show (c :: (s ++ rest) : List Char) = (c :: s) ++ rest from rfl, ← hcs]
  exact pnum_dump m e h

theorem pitems0_ws {w xs : List Char} (hw : ∀ c ∈ w, isWsCh c = true) (fuel : Nat) :
    pitems0 fuel (w ++ xs) = pitems0 fuel xs := by
  cases fuel with
  | zero => rfl
  | succ f =>
    simp only [pitems0]
    rw [skipWs_ws_append hw]

theorem pitemsRest_ws {w xs : List Char} (hw : ∀ c ∈ w, isWsCh c = true) (fuel : Nat) :
    pitemsRest fuel (w ++ xs) = pitemsRest fuel xs := by
  cases fuel with
  | zero => rfl
  | succ f =>
    simp only [pitemsRest]
    rw [skipWs_ws_append hw]

theorem pmembers0_ws {w xs : List Char} (hw : ∀ c ∈ w, isWsCh c = true) (fuel : Nat) :
    pmembers0 fuel (w ++ xs) = pmembers0 fuel xs := by
  cases fuel with
  | zero => rfl
  | succ f =>
    simp only [pmembers0]
    rw [skipWs_ws_append hw]

theorem pmembersRest_ws {w xs : List Char} (hw : ∀ c ∈ w, isWsCh c = true) (fuel : Nat) :
    pmembersRest fuel (w ++ xs) = pmembersRest fuel xs := by
  cases fuel with
  | zero => rfl
  | succ f =>
    simp only [pmembersRest]
    rw [skipWs_ws_append hw]

theorem pitems0_cons (f : Nat) {c : Char} (hws : isWsCh c = false) (rest : List Char) :
    pitems0 (f + 1) (c :: rest) =
      (if c = ']' then some (.jarr .nil, rest)
      else
        match pval f (c :: rest) with
        | none => none
        | some (v, r1) => (pitemsRest f r1).map (fun p => (.jarr (.cons v p.1), p.2))) := by
  simp only [pitems0]
  rw [skipWs_cons_not_ws hws]

theorem pitemsRest_cons (f : Nat) {c : Char} (hws : isWsCh c = false) (rest : List Char) :
    pitemsRest (f + 1) (c :: rest) =
      (if c = ']' then some (.nil, rest)
      else if c = ',' then
        match pval f rest with
        | none => none
        | some (v, r1) => (pitemsRest f r1).map (fun p => (JsonList.cons v p.1, p.2))
      else none) := by
  simp only [pitemsRest]
  rw [skipWs_cons_not_ws hws]

theorem pmembers0_cons (f : Nat) {c : Char} (hws : isWsCh c = false) (rest : List Char) :
    pmembers0 (f + 1) (c :: rest) =
      (if c = '}' then some (.jobj .nil, rest)
      else if c = '"' then
        match pstr rest with
        | none => none
        | some (k, r1) =>
          match skipWs r1 with
          | c2 :: r2 =>
            if c2 = ':' then
              match pval f r2 with
              | none => none
              | some (v, r3) =>
                (pmembersRest f r3).map (fun p => (.jobj (.cons k v p.1), p.2))
            else none
          | [] => none
      else none) := by
  simp only [pmembers0]
  rw [skipWs_cons_not_ws hws]

theorem pmembersRest_cons (f : Nat) {c : Char} (hws : isWsCh c = false) (rest : List Char) :
    pmembersRest (f + 1) (c :: rest) =
      (if c = '}' then some (.nil, rest)
      else if c = ',' then
        match skipWs rest with
        | c1 :: r1 =>
          if c1 = '"' then
            match pstr r1 with
            | none => none
            | some (k, r2) =>
              match skipWs r2 with
              | c3 :: r3 =>
                if c3 = ':' then
                  match pval f r3 with
                  | none => none
                  | some (v, r4) =>
                    (pmembersRest f r4).map (fun p => (JsonMembers.cons k v p.1, p.2))
                else none
              | [] => none
          else none
        | [] => none
      else none) := by
  simp only [pmembersRest]
  rw [skipWs_cons_not_ws hws]

theorem dumpVal_head (v : Json) (lvl : Nat) :
    ∃ c s, dumpVal v lvl = c :: s ∧ isWsCh c = false ∧ ¬ c = ']' ∧ ¬ c = '}' := by
  match v with
  | .jnull => exact ⟨'n', ['u', 'l', 'l'], by simp [dumpVal], by decide, by decide, by decide⟩
  | .jbool true =>
    exact ⟨'t', ['r', 'u', 'e'], by simp [dumpVal], by decide, by decide, by decide⟩
  | .jbool false =>
    exact ⟨'f', ['a', 'l', 's', 'e'], by simp [dumpVal], by decide, by decide, by decide⟩
  | .jstr s =>
    exact ⟨'"', escBody s ++ ['"'], by simp [dumpVal, dumpStr], by decide, by decide, by decide⟩
  | .jarr .nil => exact ⟨'[', [']'], by simp [dumpVal], by decide, by decide, by decide⟩
  | .jarr (.cons v tl) =>
    exact ⟨'[', dumpItems (.cons v tl) (lvl + 1) ++ '\n' :: (ind lvl ++ [']']),
      by simp [dumpVal], by decide, by decide, by decide⟩
  | .jobj .nil => exact ⟨'{', ['}'], by simp [dumpVal], by decide, by decide, by decide⟩
  | .jobj (.cons k v tl) =>
    exact ⟨'{', dumpMembers (.cons k v tl) (lvl + 1) ++ '\n' :: (ind lvl ++ ['}']),
      by simp [dumpVal], by decide, by decide, by decide⟩
  | .jnum m e =>
    obtain ⟨c, s, hcs, hc⟩ := dumpNum_head m e
    refine ⟨c, s, by simp [dumpVal, hcs], ?_, ?_, ?_⟩
    · rcases hc with h | h
      · subst h; rfl
      · exact (digit_plain h).1
    · rcases hc with h | h
      · subst h; decide
      · exact (digit_plain h).2.2.2.2.2.2.2.2.2.2.1
    · rcases hc with h | h
      · subst h; decide
      · exact (digit_plain h).2.2.2.2.2.2.2.2.2.2.2.1

theorem delim_dumpSep (tl : JsonList) (lvl : Nat) (zs : List Char) :
    delimHead (dumpSep tl lvl ++ '\n' :: zs) := by
  match tl with
  | .nil =>
    intro c hc
    simp only [dumpSep, List.nil_append, List.head?] at hc
    cases hc
    exact ⟨rfl, by decide, by decide, by decide⟩
  | .cons v tl2 =>
    intro c hc
    simp only [dumpSep, List.cons_append, List.head?] at hc
    cases hc
    exact ⟨rfl, by decide, by decide, by decide⟩

theorem delim_dumpMSep (tl : JsonMembers) (lvl : Nat) (zs : List Char) :
    delimHead (dumpMSep tl lvl ++ '\n' :: zs) := by
  match tl with
  | .nil =>
    intro c hc
    simp only [dumpMSep, List.nil_append, List.head?] at hc
    cases hc
    exact ⟨rfl, by decide, by decide, by decide⟩
  | .cons k v tl2 =>
    intro c hc
    simp only [dumpMSep, List.cons_append, List.head?] at hc
    cases hc
    exact ⟨rfl, by decide, by decide, by decide⟩

theorem pval_sp (fuel : Nat) (xs : List Char) :
    pval fuel (' ' :: xs) = pval fuel xs :=
  @pval_ws [' '] xs (by intro c hc; simp at hc; rw [hc]; rfl) fuel

mutual
theorem pval_dump : ∀ (v : Json) (lvl : Nat) (rest : List Char), delimHead rest →
    ∀ fuel : Nat, jsize v ≤ fuel → pval fuel (dumpVal v lvl ++ rest) = some (v, rest)
  | .jnull, lvl, rest, hrest, fuel, hf => by
    have h1 : 1 ≤ fuel := le_trans (by simp [jsize]) hf
    obtain ⟨f, rfl⟩ : ∃ f, fuel = f + 1 := ⟨fuel - 1, by omega⟩
    simp only [dumpVal, List.cons_append, List.nil_append]
    exact pval_null f rest
  | .jbool true, lvl, rest, hrest, fuel, hf => by
    have h1 : 1 ≤ fuel := le_trans (by simp [jsize]) hf
    obtain ⟨f, rfl⟩ : ∃ f, fuel = f + 1 := ⟨fuel - 1, by omega⟩
    simp only [dumpVal, List.cons_append, List.nil_append]
    exact pval_true f rest
  | .jbool false, lvl, rest, hrest, fuel, hf => by
    have h1 : 1 ≤ fuel := le_trans (by simp [jsize]) hf
    obtain ⟨f, rfl⟩ : ∃ f, fuel = f + 1 := ⟨fuel - 1, by omega⟩
    simp only [dumpVal, List.cons_append, List.nil_append]
    exact pval_false f rest
  | .jnum m e, lvl, rest, hrest, fuel, hf => by
    have h1 : 1 ≤ fuel := le_trans (by simp [jsize]) hf
    obtain ⟨f, rfl⟩ : ∃ f, fuel = f + 1 := ⟨fuel - 1, by omega⟩
    simp only [dumpVal]
    exact pval_num f m e hrest
  | .jstr s, lvl, rest, hrest, fuel, hf => by
    have h1 : 1 ≤ fuel := le_trans (by simp [jsize]) hf
    obtain ⟨f, rfl⟩ : ∃ f, fuel = f + 1 := ⟨fuel - 1, by omega⟩
    simp only [dumpVal]
    exact pval_str f s rest
  | .jarr .nil, lvl, rest, hrest, fuel, hf => by
    have h1 : 2 ≤ fuel := le_trans (by simp [jsize]) hf
    obtain ⟨f, rfl⟩ : ∃ f, fuel = f + 1 + 1 := ⟨fuel - 2, by omega⟩
    simp only [dumpVal, List.cons_append, List.nil_append]
    rw [pval_cons (f + 1) (by decide)]
    rw [if_neg (by decide), if_pos rfl]
    rw [pitems0_cons f (by decide)]
    rw [if_pos rfl]
  | .jarr (.cons v tl), lvl, rest, hrest, fuel, hf => by
    have h1 : 1 + rsize (.cons v tl) ≤ fuel := by
      have := hf
      simp only [jsize, rsize] at this ⊢
      omega
    obtain ⟨f, rfl⟩ : ∃ f, fuel = f + 1 := ⟨fuel - 1, by omega⟩
    simp only [dumpVal, List.cons_append, List.append_assoc, List.nil_append]
    rw [pval_cons f (by decide)]
    rw [if_neg (by decide), if_pos rfl]
    exact pitems_dump v tl lvl rest f (by omega)
  | .jobj .nil, lvl, rest, hrest, fuel, hf => by
    have h1 : 2 ≤ fuel := le_trans (by simp [jsize]) hf
    obtain ⟨f, rfl⟩ : ∃ f, fuel = f + 1 + 1 := ⟨fuel - 2, by omega⟩
    simp only [dumpVal, List.cons_append, List.nil_append]
    rw [pval_cons (f + 1) (by decide)]
    rw [if_pos rfl]
    rw [pmembers0_cons f (by decide)]
    rw [if_pos rfl]
  | .jobj (.cons k v tl), lvl, rest, hrest, fuel, hf => by
    have h1 : 1 + msize (.cons k v tl) ≤ fuel := by
      have := hf
      simp only [jsize, msize] at this ⊢
      omega
    obtain ⟨f, rfl⟩ : ∃ f, fuel = f + 1 := ⟨fuel - 1, by omega⟩
    simp only [dumpVal, List.cons_append, List.append_assoc, List.nil_append]
    rw [pval_cons f (by decide)]
    rw [if_pos rfl]
    exact pmembers_dump k v tl lvl rest f (by omega)
termination_by v _ _ _ _ _ => sizeOf v

theorem pitems_dump : ∀ (v : Json) (tl : JsonList) (lvl : Nat) (rest : List Char)
    (fuel : Nat), rsize (.cons v tl) ≤ fuel →
    pitems0 fuel (dumpItems (.cons v tl) (lvl + 1) ++ '\n' :: (ind lvl ++ ']' :: rest)) =
      some (.jarr (.cons v tl), rest)
  | v, tl, lvl, rest, fuel, hf => by
    have h1 : 1 + jsize v + rsize tl ≤ fuel := by
      have := hf
      simp only [rsize] at this
      omega
    obtain ⟨f, rfl⟩ : ∃ f, fuel = f + 1 := ⟨fuel - 1, by omega⟩
    simp only [dumpItems, List.cons_append, List.append_assoc]
    rw [show ('\n' :: (ind (lvl + 1) ++ (dumpVal v (lvl + 1) ++ (dumpSep tl (lvl + 1) ++
        '\n' :: (ind lvl ++ ']' :: rest))))) = ('\n' :: ind (lvl + 1)) ++
        (dumpVal v (lvl + 1) ++ (dumpSep tl (lvl + 1) ++
        '\n' :: (ind lvl ++ ']' :: rest))) from rfl]
    rw [pitems0_ws (ws_nl_ind (lvl + 1))]
    obtain ⟨c, s, hcs, hws, hrb, _⟩ := dumpVal_head v (lvl + 1)
    rw [hcs]
    simp only [List.cons_append]
    rw [pitems0_cons f hws]
    rw [if_neg hrb]
    rw [show (c :: (s ++ (dumpSep tl (lvl + 1) ++ '\n' :: (ind lvl ++ ']' :: rest)))) =
      (c :: s) ++ (dumpSep tl (lvl + 1) ++ '\n' :: (ind lvl ++ ']' :: rest)) from rfl, ← hcs]
    simp only [pval_dump v (lvl + 1) (dumpSep tl (lvl + 1) ++ '\n' :: (ind lvl ++ ']' :: rest))
      (delim_dumpSep tl (lvl + 1) (ind lvl ++ ']' :: rest)) f (by omega)]
    simp only [psep_dump tl lvl rest f (by omega)]
    rfl
termination_by v tl _ _ _ _ => 1 + sizeOf v + sizeOf tl

theorem psep_dump : ∀ (tl : JsonList) (lvl : Nat) (rest : List Char) (fuel : Nat),
    rsize tl ≤ fuel →
    pitemsRest fuel (dumpSep tl (lvl + 1) ++ '\n' :: (ind lvl ++ ']' :: rest)) =
      some (tl, rest)
  | .nil, lvl, rest, fuel, hf => by
    have h1 : 1 ≤ fuel := le_trans (by simp [rsize]) hf
    obtain ⟨f, rfl⟩ : ∃ f, fuel = f + 1 := ⟨fuel - 1, by omega⟩
    simp only [dumpSep, List.nil_append]
    rw [show ('\n' :: (ind lvl ++ ']' :: rest)) = ('\n' :: ind lvl) ++ (']' :: rest)
      from rfl]
    rw [pitemsRest_ws (ws_nl_ind lvl)]
    rw [pitemsRest_cons f (by decide)]
    rw [if_pos rfl]
  | .cons v tl, lvl, rest, fuel, hf => by
    have h1 : 1 + jsize v + rsize tl ≤ fuel := by
      have := hf
      simp only [rsize] at this
      omega
    obtain ⟨f, rfl⟩ : ∃ f, fuel = f + 1 := ⟨fuel - 1, by omega⟩
    simp only [dumpSep, dumpItems, List.cons_append, List.append_assoc]
    rw [pitemsRest_cons f (by decide)]
    rw [if_neg (by decide), if_pos rfl]
    rw [show ('\n' :: (ind (lvl + 1) ++ (dumpVal v (lvl + 1) ++ (dumpSep tl (lvl + 1) ++
        '\n' :: (ind lvl ++ ']' :: rest))))) = ('\n' :: ind (lvl + 1)) ++
        (dumpVal v (lvl + 1) ++ (dumpSep tl (lvl + 1) ++
        '\n' :: (ind lvl ++ ']' :: rest))) from rfl]
    rw [pval_ws (ws_nl_ind (lvl + 1))]
    simp only [pval_dump v (lvl + 1) (dumpSep tl (lvl + 1) ++ '\n' :: (ind lvl ++ ']' :: rest))
      (delim_dumpSep tl (lvl + 1) (ind lvl ++ ']' :: rest)) f (by omega)]
    simp only [psep_dump tl lvl rest f (by omega)]
    rfl
termination_by tl _ _ _ _ => sizeOf tl

theorem pmembers_dump : ∀ (k : List Char) (v : Json) (tl : JsonMembers) (lvl : Nat)
    (rest : List Char) (fuel : Nat), msize (.cons k v tl) ≤ fuel →
    pmembers0 fuel (dumpMembers (.cons k v tl) (lvl + 1) ++
      '\n' :: (ind lvl ++ '}' :: rest)) = some (.jobj (.cons k v tl), rest)
  | k, v, tl, lvl, rest, fuel, hf => by
    have h1 : 1 + jsize v + msize tl ≤ fuel := by
      have := hf
      simp only [msize] at this
      omega
    obtain ⟨f, rfl⟩ : ∃ f, fuel = f + 1 := ⟨fuel - 1, by omega⟩
    simp only [dumpMembers, dumpStr, List.cons_append, List.append_assoc, List.nil_append]
    rw [show ('\n' :: (ind (lvl + 1) ++ ('"' :: (escBody k ++ '"' :: (':' :: ' ' ::
        (dumpVal v (lvl + 1) ++ (dumpMSep tl (lvl + 1) ++
        '\n' :: (ind lvl ++ '}' :: rest)))))))) = ('\n' :: ind (lvl + 1)) ++
        ('"' :: (escBody k ++ '"' :: (':' :: ' ' :: (dumpVal v (lvl + 1) ++
        (dumpMSep tl (lvl + 1) ++ '\n' :: (ind lvl ++ '}' :: rest)))))) from rfl]
    rw [pmembers0_ws (ws_nl_ind (lvl + 1))]
    rw [pmembers0_cons f (by decide)]
    rw [if_neg (by decide), if_pos rfl]
    simp only [pstr_dumpStr]
    simp only [skipWs_cons_not_ws (show isWsCh ':' = false from rfl)]
    rw [if_pos trivial]
    rw [pval_sp]
    simp only [pval_dump v (lvl + 1) (dumpMSep tl (lvl + 1) ++ '\n' :: (ind lvl ++ '}' :: rest))
      (delim_dumpMSep tl (lvl + 1) (ind lvl ++ '}' :: rest)) f (by omega)]
    simp only [pmsep_dump tl lvl rest f (by omega)]
    rfl
termination_by _ v tl _ _ _ _ => 1 + sizeOf v + sizeOf tl

theorem pmsep_dump : ∀ (tl : JsonMembers) (lvl : Nat) (rest : List Char) (fuel : Nat),
    msize tl ≤ fuel →
    pmembersRest fuel (dumpMSep tl (lvl + 1) ++ '\n' :: (ind lvl ++ '}' :: rest)) =
      some (tl, rest)
  | .nil, lvl, rest, fuel, hf => by
    have h1 : 1 ≤ fuel := le_trans (by simp [msize]) hf
    obtain ⟨f, rfl⟩ : ∃ f, fuel = f + 1 := ⟨fuel - 1, by omega⟩
    simp only [dumpMSep, List.nil_append]
    rw [show ('\n' :: (ind lvl ++ '}' :: rest)) = ('\n' :: ind lvl) ++ ('}' :: rest)
      from rfl]
    rw [pmembersRest_ws (ws_nl_ind lvl)]
    rw [pmembersRest_cons f (by decide)]
    rw [if_pos rfl]
  | .cons k v tl, lvl, rest, fuel, hf => by
    have h1 : 1 + jsize v + msize tl ≤ fuel := by
      have := hf
      simp only [msize] at this
      omega
    obtain ⟨f, rfl⟩ : ∃ f, fuel = f + 1 := ⟨fuel - 1, by omega⟩
    simp only [dumpMSep, dumpMembers, dumpStr, List.cons_append, List.append_assoc,
      List.nil_append]
    rw [pmembersRest_cons f (by decide)]
    rw [if_neg (by decide), if_pos rfl]
    rw [show ('\n' :: (ind (lvl + 1) ++ ('"' :: (escBody k ++ '"' :: (':' :: ' ' ::
        (dumpVal v (lvl + 1) ++ (dumpMSep tl (lvl + 1) ++
        '\n' :: (ind lvl ++ '}' :: rest)))))))) = ('\n' :: ind (lvl + 1)) ++
        ('"' :: (escBody k ++ '"' :: (':' :: ' ' :: (dumpVal v (lvl + 1) ++
        (dumpMSep tl (lvl + 1) ++ '\n' :: (ind lvl ++ '}' :: rest)))))) from rfl]
    rw [skipWs_ws_append (ws_nl_ind (lvl + 1))]
    simp only [skipWs_cons_not_ws (show isWsCh '"' = false from rfl)]
    rw [if_pos trivial]
    simp only [pstr_dumpStr]
    simp only [skipWs_cons_not_ws (show isWsCh ':' = false from rfl)]
    rw [if_pos trivial]
    rw [pval_sp]
    simp only [pval_dump v (lvl + 1) (dumpMSep tl (lvl + 1) ++ '\n' :: (ind lvl ++ '}' :: rest))
      (delim_dumpMSep tl (lvl + 1) (ind lvl ++ '}' :: rest)) f (by omega)]
    simp only [pmsep_dump tl lvl rest f (by omega)]
    rfl
termination_by tl _ _ _ _ => sizeOf tl
end

mutual
theorem jsize_le : ∀ (v : Json) (lvl : Nat), jsize v ≤ (dumpVal v lvl).length + 1
  | .jnull, lvl => by simp only [jsize]; omega
  | .jbool true, lvl => by simp only [jsize]; omega
  | .jbool false, lvl => by simp only [jsize]; omega
  | .jnum m e, lvl => by simp only [jsize]; omega
  | .jstr s, lvl => by simp only [jsize]; omega
  | .jarr .nil, lvl => by simp [jsize, dumpVal]
  | .jarr (.cons v tl), lvl => by
    have h1 := jsize_le v (lvl + 1)
    have h2 := rsize_le tl (lvl + 1)
    simp only [jsize, dumpVal, dumpItems, List.length_cons, List.length_append] at *
    omega
  | .jobj .nil, lvl => by simp [jsize, dumpVal]
  | .jobj (.cons k v tl), lvl => by
    have h1 := jsize_le v (lvl + 1)
    have h2 := msize_le tl (lvl + 1)
    simp only [jsize, dumpVal, dumpMembers, List.length_cons, List.length_append] at *
    omega

theorem rsize_le : ∀ (tl : JsonList) (lvl : Nat), rsize tl ≤ (dumpSep tl lvl).length + 2
  | .nil, lvl => by simp only [rsize, dumpSep]; omega
  | .cons v tl, lvl => by
    have h1 := jsize_le v lvl
    have h2 := rsize_le tl lvl
    simp only [rsize, dumpSep, dumpItems, List.length_cons, List.length_append] at *
    omega

theorem msize_le : ∀ (tl : JsonMembers) (lvl : Nat), msize tl ≤ (dumpMSep tl lvl).length + 2
  | .nil, lvl => by simp only [msize, dumpMSep]; omega
  | .cons k v tl, lvl => by
    have h1 := jsize_le v lvl
    have h2 := msize_le tl lvl
    simp only [msize, dumpMSep, dumpMembers, List.length_cons, List.length_append] at *
    omega
end

theorem loads_dumps (v : Json) : loads (dumps v) = some v := by
  simp only [loads, dumps]
  have h := pval_dump v 0 [] (by intro c hc; simp at hc) ((dumpVal v 0).length + 1)
    (jsize_le v 0)
  rw [List.append_nil] at h
  simp only [h]
  rfl

/-- C2: for every sessions dictionary (string keys, JSON-representable values:
strings, decimal numbers, booleans, null, nested lists and dicts), writing it
with `LabManager._save_sessions` (`json.dump(..., indent=2)`) and reading it
back with `LabManager._load_sessions` (`json.load`) returns a dictionary equal
to the one saved: the local JSON save-then-load round trip preserves every
field value. -/
theorem C2_json_round_trip (sessions : JsonMembers) :
    load_sessions (some (save_sessions sessions)) = Json.jobj sessions := by
  simp only [load_sessions, save_sessions, loads_dumps]

/-- C7: `SimplePricingHelper.get_free_tier_status` returns a `limits` map equal
to the static class constant `FREE_TIER_LIMITS` (EC2: 750, S3: 5, Lambda:
1000000, CodeBuild: 100); in the model the function reads no input and no AWS
state, so the Free Tier approximation is exactly these static constants. -/
theorem C7_free_tier_static :
    get_free_tier_status.limits = FREE_TIER_LIMITS ∧
    FREE_TIER_LIMITS =
      [("EC2", 750), ("S3", 5), ("Lambda", 1000000), ("CodeBuild", 100)] :=
  ⟨rfl, rfl⟩

/-- C3: for every configuration item and rule-parameters dictionary, the EC2
instance-type Config rule's `evaluate_compliance` equals the single predicate
`evaluate_compliance_spec`: NOT_APPLICABLE when `resourceType` is not
`AWS::EC2::Instance`, otherwise COMPLIANT exactly when
`configuration.instanceType` is a member of the comma-split
`approvedInstanceTypes` parameter (default `t2.micro,t3.micro,t3.small`) and
NON_COMPLIANT otherwise, with no other outcome possible. -/
theorem C3_config_rule_predicate (configuration_item : ConfigurationItem)
    (rule_parameters : List (String × String)) :
    evaluate_compliance configuration_item rule_parameters =
      evaluate_compliance_spec configuration_item rule_parameters := by
  simp only [evaluate_compliance, evaluate_compliance_spec]
  by_cases h : configuration_item.resourceType = "AWS::EC2::Instance"
  · simp only [h, bne_self_eq_false, Bool.false_eq_true, if_false, ne_eq,
      not_true_eq_false, if_false]
    cases hp : rule_parameters.lookup "approvedInstanceTypes" with
    | none =>
      cases hl : configuration_item.configuration.lookup "instanceType" with
      | none => simp
      | some t =>
        simp only [Option.getD_none, Option.getD_some]
        by_cases hm : t.data ∈ splitComma "t2.micro,t3.micro,t3.small".data
        · have : splitComma "t2.micro,t3.micro,t3.small".data =
              ["t2.micro".data, "t3.micro".data, "t3.small".data] := by decide
          rw [this] at hm
          simp [List.elem_iff, this, hm]
        · have : splitComma "t2.micro,t3.micro,t3.small".data =
              ["t2.micro".data, "t3.micro".data, "t3.small".data] := by decide
          rw [this] at hm
          simp [List.elem_iff, this, hm]
    | some s =>
      cases hl : configuration_item.configuration.lookup "instanceType" with
      | none => simp
      | some t =>
        simp only [Option.getD_some]
        by_cases hm : t.data ∈ splitComma s.data
        · simp [List.elem_iff, hm]
        · simp [List.elem_iff, hm]
  · simp [h]

theorem c5_inner (c : String × CheckResult) (issues : List String)
    (acc : ValidationResults) :
    issues.foldl (fun acc issue =>
      if c.2.status == "error" then
        { acc with errors := acc.errors ++ [c.1 ++ ": " ++ issue] }
      else if c.2.status == "failed" then
        { acc with errors := acc.errors ++ [c.1 ++ ": " ++ issue] }
      else if c.2.status == "warning" then
        { acc with warnings := acc.warnings ++ [c.1 ++ ": " ++ issue] }
      else acc) acc =
    { acc with
      errors := acc.errors ++
        (if c.2.status = "error" ∨ c.2.status = "failed" then
          issues.map (fun i => c.1 ++ ": " ++ i) else []),
      warnings := acc.warnings ++
        (if c.2.status = "warning" then
          issues.map (fun i => c.1 ++ ": " ++ i) else []) } := by
  induction issues generalizing acc with
  | nil => simp
  | cons i tl ih =>
    rw [List.foldl_cons, ih]
    by_cases h1 : c.2.status = "error"
    · simp [h1]
    · by_cases h2 : c.2.status = "failed"
      · simp [h1, h2]
      · by_cases h3 : c.2.status = "warning"
        · simp [h1, h2, h3]
        · simp [h1, h2, h3]

theorem c5_outer (checks : List (String × CheckResult)) (acc : ValidationResults) :
    (checks.foldl (fun acc c =>
      c.2.issues.foldl (fun acc issue =>
        if c.2.status == "error" then
          { acc with errors := acc.errors ++ [c.1 ++ ": " ++ issue] }
        else if c.2.status == "failed" then
          { acc with errors := acc.errors ++ [c.1 ++ ": " ++ issue] }
        else if c.2.status == "warning" then
          { acc with warnings := acc.warnings ++ [c.1 ++ ": " ++ issue] }
        else acc) acc) acc) =
    { acc with
      errors := acc.errors ++ checks.flatMap (fun c =>
        if c.2.status = "error" ∨ c.2.status = "failed" then
          c.2.issues.map (fun i => c.1 ++ ": " ++ i) else []),
      warnings := acc.warnings ++ checks.flatMap (fun c =>
        if c.2.status = "warning" then
          c.2.issues.map (fun i => c.1 ++ ": " ++ i) else []) } := by
  induction checks generalizing acc with
  | nil => simp
  | cons c tl ih =>
    rw [List.foldl_cons, c5_inner c c.2.issues acc, ih]
    simp [List.flatMap_cons, List.append_assoc]

/-- C5: for every map of named check results each carrying a status and a list
of issue strings, `_determine_overall_status` sets `overall_status` to error
if some check has status error, else failed if some has failed, else warning
if some has warning, else passed; and it appends to the `errors` list the
string `name: issue` for every issue of every check whose status is error or
failed, and to the `warnings` list those of every check whose status is
warning, in check order, leaving the checks themselves unchanged. -/
theorem C5_overall_status (vr : ValidationResults) :
    (determine_overall_status vr).overall_status =
      (if vr.checks.any (fun c => c.2.status == "error") then "error"
       else if vr.checks.any (fun c => c.2.status == "failed") then "failed"
       else if vr.checks.any (fun c => c.2.status == "warning") then "warning"
       else "passed") ∧
    (determine_overall_status vr).errors =
      vr.errors ++ vr.checks.flatMap (fun c =>
        if c.2.status = "error" ∨ c.2.status = "failed" then
          c.2.issues.map (fun i => c.1 ++ ": " ++ i) else []) ∧
    (determine_overall_status vr).warnings =
      vr.warnings ++ vr.checks.flatMap (fun c =>
        if c.2.status = "warning" then
          c.2.issues.map (fun i => c.1 ++ ": " ++ i) else []) ∧
    (determine_overall_status vr).checks = vr.checks := by
  simp only [determine_overall_status]
  rw [c5_outer]
  refine ⟨rfl, rfl, rfl, rfl⟩

theorem mHasKey_of_mLookup : ∀ {ms : JsonMembers} {k : List Char} {v : Json},
    mLookup ms k = some v → mHasKey ms k = true
  | .nil, k, v, h => by simp [mLookup] at h
  | .cons k0 v0 tl, k, v, h => by
    simp only [mLookup] at h
    simp only [mHasKey]
    cases hl : mLookup tl k with
    | some r => simp [@mHasKey_of_mLookup tl k r hl]
    | none =>
      rw [hl] at h
      simp only at h
      split at h
      · next heq => simp [heq]
      · simp at h

/-- C6: the `CircuitBreakerTester` operations are thin clients with no local
state-machine logic. Each wrapper equals `call_circuit_breaker` with the
corresponding action (`check`; `record` with success True/False; `reset`);
the call's result depends only on the remote function named
`circuit-breaker-manager` (two oracles agreeing there give equal results);
when the invocation succeeds and the parsed response is a dict with a `body`
string, the call returns the parsed inner body; when the parsed response has
no `body` key, it returns that parsed response unchanged; and when the
invocation raises, it returns the dictionary holding only the error string. -/
theorem C6_thin_client (invA invA' invB invC invD : InvokeOracle)
    (s a : List Char) (su : Option Bool)
    (e pB pC bodyStr : List Char) (msB : JsonMembers) (inner resultC : Json)
    (hAgree : ∀ p, invA "circuit-breaker-manager" p = invA' "circuit-breaker-manager" p)
    (hB1 : invB "circuit-breaker-manager" (cdumps (cbPayload s a su)) = .ok pB)
    (hB2 : loads pB = some (.jobj msB))
    (hB3 : mLookup msB "body".data = some (.jstr bodyStr))
    (hB4 : loads bodyStr = some inner)
    (hC1 : invC "circuit-breaker-manager" (cdumps (cbPayload s a su)) = .ok pC)
    (hC2 : loads pC = some resultC)
    (hC3 : jsonContainsKey "body".data resultC = .ok false)
    (hD : invD "circuit-breaker-manager" (cdumps (cbPayload s a su)) = .error e) :
    check_circuit_state invA s = call_circuit_breaker invA s "check".data none ∧
    record_success invA s = call_circuit_breaker invA s "record".data (some true) ∧
    record_failure invA s = call_circuit_breaker invA s "record".data (some false) ∧
    reset_circuit invA s = call_circuit_breaker invA s "reset".data none ∧
    call_circuit_breaker invA s a su = call_circuit_breaker invA' s a su ∧
    call_circuit_breaker invB s a su = inner ∧
    call_circuit_breaker invC s a su = resultC ∧
    call_circuit_breaker invD s a su = cbErrDict e := by
  refine ⟨rfl, rfl, rfl, rfl, ?_, ?_, ?_, ?_⟩
  · simp only [call_circuit_breaker, hAgree]
  · simp only [call_circuit_breaker, hB1, hB2, jsonContainsKey,
      mHasKey_of_mLookup hB3, jsonGetKey, hB3, hB4]
  · simp only [call_circuit_breaker, hC1, hC2, hC3]
  · simp only [call_circuit_breaker, hD]

/-- Witness for C6 at concrete oracles: a constant-error oracle for the
agreement and error cases, an oracle answering with a `body`-wrapped
serialized number, and one answering with a bare empty object. -/
theorem C6_thin_client_witness :
    check_circuit_state (fun _ _ => .error "x".data) "svc".data =
      call_circuit_breaker (fun _ _ => .error "x".data) "svc".data "check".data none ∧
    record_success (fun _ _ => .error "x".data) "svc".data =
      call_circuit_breaker (fun _ _ => .error "x".data) "svc".data "record".data (some true) ∧
    record_failure (fun _ _ => .error "x".data) "svc".data =
      call_circuit_breaker (fun _ _ => .error "x".data) "svc".data "record".data (some false) ∧
    reset_circuit (fun _ _ => .error "x".data) "svc".data =
      call_circuit_breaker (fun _ _ => .error "x".data) "svc".data "reset".data none ∧
    call_circuit_breaker (fun _ _ => .error "x".data) "svc".data "check".data none =
      call_circuit_breaker (fun _ _ => .error "x".data) "svc".data "check".data none ∧
    call_circuit_breaker
      (fun _ _ => .ok (dumps (.jobj (.cons "body".data (.jstr (dumps (.jnum 1 0))) .nil))))
      "svc".data "check".data none = Json.jnum 1 0 ∧
    call_circuit_breaker (fun _ _ => .ok (dumps (.jobj .nil)))
      "svc".data "check".data none = Json.jobj .nil ∧
    call_circuit_breaker (fun _ _ => .error "x".data) "svc".data "check".data none =
      cbErrDict "x".data :=
  C6_thin_client (fun _ _ => .error "x".data) (fun _ _ => .error "x".data)
    (fun _ _ => .ok (dumps (.jobj (.cons "body".data (.jstr (dumps (.jnum 1 0))) .nil))))
    (fun _ _ => .ok (dumps (.jobj .nil))) (fun _ _ => .error "x".data)
    "svc".data "check".data none
    "x".data (dumps (.jobj (.cons "body".data (.jstr (dumps (.jnum 1 0))) .nil)))
    (dumps (.jobj .nil)) (dumps (.jnum 1 0))
    (.cons "body".data (.jstr (dumps (.jnum 1 0))) .nil) (.jnum 1 0) (.jobj .nil)
    (fun _ => rfl) rfl (loads_dumps _) rfl (loads_dumps _) rfl (loads_dumps _) rfl rfl
theorem rhe_le_floor_add_one (x : ℚ) : roundHalfEven x ≤ ⌊x⌋ + 1 := by
  simp only [roundHalfEven]
  repeat' split
  all_goals omega

theorem floor_le_rhe (x : ℚ) : ⌊x⌋ ≤ roundHalfEven x := by
  simp only [roundHalfEven]
  repeat' split
  all_goals omega

theorem rhe_nonneg {x : ℚ} (h : 0 ≤ x) : 0 ≤ roundHalfEven x := by
  have h0 : (0 : ℤ) ≤ ⌊x⌋ := Int.floor_nonneg.mpr h
  have := floor_le_rhe x
  omega

theorem rhe_mono {x y : ℚ} (h : x ≤ y) : roundHalfEven x ≤ roundHalfEven y := by
  have hf : ⌊x⌋ ≤ ⌊y⌋ := Int.floor_le_floor h
  rcases lt_or_eq_of_le hf with hlt | heq
  · have hx := rhe_le_floor_add_one x
    have hy := floor_le_rhe y
    omega
  · have hxy : x - (⌊x⌋ : ℚ) ≤ y - (⌊y⌋ : ℚ) := by
      rw [← heq]
      linarith
    simp only [roundHalfEven]
    rw [← heq] at hxy ⊢
    repeat' split
    all_goals first
    | omega
    | (exfalso; linarith)

theorem round4_nonneg {x : ℚ} (h : 0 ≤ x) : 0 ≤ round4 x := by
  have : (0 : ℤ) ≤ roundHalfEven (x * 10000) := rhe_nonneg (by linarith)
  simp only [round4]
  positivity

theorem round4_mono {x y : ℚ} (h : x ≤ y) : round4 x ≤ round4 y := by
  have : roundHalfEven (x * 10000) ≤ roundHalfEven (y * 10000) :=
    rhe_mono (by linarith)
  have hc : ((roundHalfEven (x * 10000) : ℤ) : ℚ) ≤
      ((roundHalfEven (y * 10000) : ℤ) : ℚ) := by exact_mod_cast this
  simp only [round4]
  linarith

theorem serviceContrib_bounds (service : String) {d : ℚ} (hd : 0 ≤ d) :
    0 ≤ (serviceContrib service d).1 ∧
    (serviceContrib service d).1 ≤ (serviceContrib service d).2 := by
  have hlE : (FREE_TIER_LIMITS.lookup "EC2").getD 0 = (750 : ℚ) := by
    simp [FREE_TIER_LIMITS, List.lookup]
  have hlS : (FREE_TIER_LIMITS.lookup "S3").getD 0 = (5 : ℚ) := by
    simp [FREE_TIER_LIMITS, List.lookup]
  have hlC : (FREE_TIER_LIMITS.lookup "CodeBuild").getD 0 = (100 : ℚ) := by
    simp [FREE_TIER_LIMITS, List.lookup]
  have hpE : (FALLBACK_PRICING.lookup "EC2").getD 0 = (104 / 10000 : ℚ) := by
    simp [FALLBACK_PRICING, List.lookup]
  have hpS : (FALLBACK_PRICING.lookup "S3").getD 0 = (23 / 1000 : ℚ) := by
    simp [FALLBACK_PRICING, List.lookup]
  have hpL : (FALLBACK_PRICING.lookup "Lambda").getD 0 = (2 / 10000000 : ℚ) := by
    simp [FALLBACK_PRICING, List.lookup]
  have hpC : (FALLBACK_PRICING.lookup "CodeBuild").getD 0 = (5 / 1000 : ℚ) := by
    simp [FALLBACK_PRICING, List.lookup]
  simp only [serviceContrib]
  by_cases h1 : service.toUpper == "EC2"
  · simp only [h1, if_true, hlE, hpE]
    have hm : max 0 (d - 750) ≤ d := max_le (by linarith) (by linarith)
    have hm0 : (0 : ℚ) ≤ max 0 (d - 750) := le_max_left 0 _
    constructor
    · nlinarith
    · nlinarith
  · simp only [h1, Bool.false_eq_true, if_false]
    by_cases h2 : service.toUpper == "S3"
    · simp only [h2, if_true, hlS, hpS]
      have hz : max 0 ((1 : ℚ) - 5) = 0 := by
        rw [max_eq_left]
        norm_num
      rw [hz]
      constructor
      · simp
      · rw [zero_mul, zero_mul, one_mul]
        positivity
    · simp only [h2, Bool.false_eq_true, if_false]
      by_cases h3 : service.toUpper == "LAMBDA"
      · simp only [h3, if_true, hpL]
        have hreq : (0 : ℤ) ≤ pyInt (10000 * d) := by
          simp only [pyInt]
          rw [if_pos (by positivity)]
          exact Int.floor_nonneg.mpr (by positivity)
        have hov : max 0 (pyInt (10000 * d) - 1000000) ≤ pyInt (10000 * d) := by
          rw [max_le_iff]
          omega
        have hov0 : (0 : ℤ) ≤ max 0 (pyInt (10000 * d) - 1000000) := le_max_left 0 _
        have hcast : ((max 0 (pyInt (10000 * d) - 1000000) : ℤ) : ℚ) ≤
            ((pyInt (10000 * d) : ℤ) : ℚ) := by exact_mod_cast hov
        have hcast0 : (0 : ℚ) ≤ ((max 0 (pyInt (10000 * d) - 1000000) : ℤ) : ℚ) := by
          exact_mod_cast hov0
        constructor
        · nlinarith
        · nlinarith
      · simp only [h3, Bool.false_eq_true, if_false]
        by_cases h4 : service.toUpper == "CODEBUILD"
        · simp only [h4, if_true, hlC, hpC]
          have hz : max 0 ((30 : ℚ) - 100) = 0 := by
            rw [max_eq_left]
            norm_num
          rw [hz]
          constructor
          · simp
          · rw [zero_mul]
            norm_num
        · simp only [h4, Bool.false_eq_true, if_false]
          rcases hlk : FALLBACK_PRICING.lookup service.toUpper with _ | p
          · simp
          · have hp : (0 : ℚ) ≤ p := by
              simp only [FALLBACK_PRICING, List.lookup] at hlk
              repeat' split at hlk
              all_goals first
              | (injection hlk with hv
                 rw [← hv]
                 norm_num)
              | simp at hlk
            constructor
            · positivity
            · exact le_refl _

theorem costAccum_bounds (services : List String) {d : ℚ} (hd : 0 ≤ d) :
    0 ≤ (costAccum services d).1 ∧ (costAccum services d).1 ≤ (costAccum services d).2 := by
  suffices h : ∀ acc : ℚ × ℚ, 0 ≤ acc.1 → acc.1 ≤ acc.2 →
      0 ≤ (services.foldl (fun acc s =>
        let c := serviceContrib s d
        (acc.1 + c.1, acc.2 + c.2)) acc).1 ∧
      (services.foldl (fun acc s =>
        let c := serviceContrib s d
        (acc.1 + c.1, acc.2 + c.2)) acc).1 ≤
      (services.foldl (fun acc s =>
        let c := serviceContrib s d
        (acc.1 + c.1, acc.2 + c.2)) acc).2 by
    exact h (0, 0) (le_refl 0) (le_refl 0)
  induction services with
  | nil => intro acc h1 h2; exact ⟨h1, h2⟩
  | cons s tl ih =>
    intro acc h1 h2
    obtain ⟨hc1, hc2⟩ := serviceContrib_bounds s hd
    exact ih (acc.1 + (serviceContrib s d).1, acc.2 + (serviceContrib s d).2)
      (by simp only []; linarith) (by simp only []; linarith)

/-- C9: for every list of service names and every `duration_hours >= 0`,
`estimate_lab_cost` returns `free_tier_cost` and `standard_cost` with
`0 <= free_tier_cost <= standard_cost`, and `potential_savings` equal to the
pre-rounding standard total minus the pre-rounding free-tier total, rounded to
4 decimal places like the other two fields; the reported savings are never
negative. -/
theorem C9_savings_nonneg (services : List String) (duration_hours : ℚ)
    (hd : 0 ≤ duration_hours) :
    0 ≤ (estimate_lab_cost services duration_hours).free_tier_cost ∧
    (estimate_lab_cost services duration_hours).free_tier_cost ≤
      (estimate_lab_cost services duration_hours).standard_cost ∧
    (estimate_lab_cost services duration_hours).potential_savings =
      round4 ((costAccum services duration_hours).2 -
        (costAccum services duration_hours).1) ∧
    0 ≤ (estimate_lab_cost services duration_hours).potential_savings := by
  obtain ⟨h1, h2⟩ := costAccum_bounds services hd
  simp only [estimate_lab_cost]
  refine ⟨round4_nonneg h1, round4_mono h2, trivial, round4_nonneg (by linarith)⟩

/-- Witness for C9 at the concrete input `["EC2", "S3"]`, two hours. -/
theorem C9_savings_nonneg_witness :
    0 ≤ (estimate_lab_cost ["EC2", "S3"] 2).free_tier_cost ∧
    (estimate_lab_cost ["EC2", "S3"] 2).free_tier_cost ≤
      (estimate_lab_cost ["EC2", "S3"] 2).standard_cost ∧
    (estimate_lab_cost ["EC2", "S3"] 2).potential_savings =
      round4 ((costAccum ["EC2", "S3"] 2).2 - (costAccum ["EC2", "S3"] 2).1) ∧
    0 ≤ (estimate_lab_cost ["EC2", "S3"] 2).potential_savings :=
  C9_savings_nonneg ["EC2", "S3"] 2 (by norm_num)

theorem lookup_map_replace {α : Type} (m : List (String × α)) (k : String) (v : α)
    (h : m.any (fun p => p.1 == k) = true) :
    (m.map (fun p => if p.1 == k then (k, v) else p)).lookup k = some v := by
  induction m with
  | nil => simp at h
  | cons p tl ih =>
    simp only [List.map_cons]
    by_cases hp : p.1 = k
    · rw [if_pos (by simp [hp])]
      simp [List.lookup]
    · rw [if_neg (by simp [hp])]
      rw [List.lookup]
      have hk : (k == p.1) = false := by
        simp [beq_iff_eq]
        intro he
        exact hp he.symm
      rw [hk]
      apply ih
      simp only [List.any_cons, Bool.or_eq_true] at h
      rcases h with h | h
      · exact absurd (by simpa [beq_iff_eq] using h) hp
      · exact h

theorem lookup_append_last {α : Type} (m : List (String × α)) (k : String) (v : α)
    (h : m.any (fun p => p.1 == k) = false) :
    (m ++ [(k, v)]).lookup k = some v := by
  induction m with
  | nil => simp [List.lookup]
  | cons p tl ih =>
    simp only [List.any_cons, Bool.or_eq_false_iff] at h
    rw [List.cons_append, List.lookup]
    have hk : (k == p.1) = false := by
      simp [beq_iff_eq]
      intro he
      rw [he] at h
      simp at h
    rw [hk]
    exact ih h.2

theorem lookup_dictSet {α : Type} (m : List (String × α)) (k : String) (v : α) :
    (dictSet m k v).lookup k = some v := by
  simp only [dictSet]
  by_cases h : m.any (fun p => p.1 == k) = true
  · rw [if_pos h]
    exact lookup_map_replace m k v h
  · rw [if_neg h]
    exact lookup_append_last m k v (by revert h; cases m.any (fun p => p.1 == k) <;> simp)

theorem updateFirstStep_length (steps : List Step) (step_name : String)
    (completed : Bool) (notes : Option String) (now : PyDateTime) :
    (updateFirstStep steps step_name completed notes now).length = steps.length := by
  induction steps with
  | nil => rfl
  | cons st tl ih =>
    simp only [updateFirstStep]
    by_cases h : st.name = step_name
    · rw [if_pos (by simp [h])]
      simp
    · rw [if_neg (by simp [h])]
      simp [ih]

theorem findNextIncomplete_eq (steps : List Step) :
    findNextIncomplete steps =
      (steps.find? (fun st => !st.completed)).map (fun st => st.name) := by
  induction steps with
  | nil => rfl
  | cons st tl ih =>
    simp only [findNextIncomplete, List.find?]
    by_cases h : st.completed
    · simp [h, ih]
    · simp only [Bool.not_eq_true] at h
      simp [h]

theorem steps1_ne_nil (cond : Bool) (steps0 upd : List Step) (newStep : Step)
    (hlen : upd.length = steps0.length)
    (hc : cond = true → steps0 ≠ []) :
    (if cond = true then upd else steps0 ++ [newStep]) ≠ [] := by
  by_cases h : cond = true
  · rw [if_pos h]
    intro hnil
    have hlen0 := congrArg List.length hnil
    rw [hlen] at hlen0
    exact hc h (List.length_eq_zero.mp hlen0)
  · rw [if_neg h]
    simp

theorem c10_pct_facts (L : List Step) (hne : L ≠ []) :
    (if L.length > 0 then
      ((L.filter (fun st => st.completed)).length : ℚ) / (L.length : ℚ) * 100
    else 0) =
      100 * ((L.filter (fun st => st.completed)).length : ℚ) / (L.length : ℚ) ∧
    0 ≤ (if L.length > 0 then
      ((L.filter (fun st => st.completed)).length : ℚ) / (L.length : ℚ) * 100
    else 0) ∧
    (if L.length > 0 then
      ((L.filter (fun st => st.completed)).length : ℚ) / (L.length : ℚ) * 100
    else 0) ≤ 100 := by
  have ht := List.length_pos.mpr hne
  have htq : (0 : ℚ) < (L.length : ℚ) := by exact_mod_cast ht
  have hle := List.length_filter_le (fun st => st.completed) L
  have hleq : ((L.filter (fun st => st.completed)).length : ℚ) ≤ (L.length : ℚ) := by
    exact_mod_cast hle
  have hfq : (0 : ℚ) ≤ ((L.filter (fun st => st.completed)).length : ℚ) := by
    positivity
  rw [if_pos ht]
  refine ⟨by ring, by positivity, ?_⟩
  have hdiv : ((L.filter (fun st => st.completed)).length : ℚ) / (L.length : ℚ) ≤ 1 :=
    (div_le_one htq).mpr hleq
  nlinarith

/-- C10: after every call to `update_session_progress` that returns True, the
stored progress record satisfies: the step list is non-empty;
`completion_percentage` equals 100 times the number of completed steps divided
by the total number of steps, and lies in [0, 100]; and `current_step` is the
name of the first not-completed step in list order (None when every step is
completed) when the updated step was marked completed, or the updated step's
own name when it was marked not completed. -/
theorem C10_progress (sessions : List (String × Session))
    (session_id step_name : String) (completed : Bool) (notes : Option String)
    (now : PyDateTime)
    (h : (update_session_progress sessions session_id step_name completed notes
      now).1 = true) :
    ∃ s p,
      (update_session_progress sessions session_id step_name completed notes
        now).2.lookup session_id = some s ∧
      s.progress = some p ∧
      p.steps ≠ [] ∧
      p.completion_percentage =
        100 * ((p.steps.filter (fun st => st.completed)).length : ℚ) /
          (p.steps.length : ℚ) ∧
      0 ≤ p.completion_percentage ∧ p.completion_percentage ≤ 100 ∧
      p.current_step = (if completed then
        (p.steps.find? (fun st => !st.completed)).map (fun st => st.name)
      else some step_name) := by
  cases hlook : sessions.lookup session_id with
  | none => simp [update_session_progress, hlook] at h
  | some s =>
    simp only [update_session_progress, hlook]
    have hne : _ ≠ ([] : List Step) := steps1_ne_nil
      ((match s.progress with
        | none => { steps := [], current_step := none,
                    completion_percentage := 0,
                    last_updated := pyIsoformat now }
        | some p => p : Progress).steps.any (fun st => st.name == step_name))
      _ _
      { name := step_name, completed := completed,
        started_at := some (pyIsoformat now),
        completed_at := if completed then some (pyIsoformat now) else none,
        notes := if strTruthy notes then notes else none }
      (updateFirstStep_length
        (match s.progress with
          | none => { steps := [], current_step := none,
                      completion_percentage := 0,
                      last_updated := pyIsoformat now }
          | some p => p : Progress).steps step_name completed notes now)
      (fun hf hnil => by simp [hnil] at hf)
    refine ⟨_, _, lookup_dictSet _ _ _, rfl, hne, (c10_pct_facts _ hne).1,
      (c10_pct_facts _ hne).2.1, (c10_pct_facts _ hne).2.2, ?_⟩
    cases completed
    · rfl
    · simp only [if_pos rfl]
      exact findNextIncomplete_eq _

/-- Witness for C10: one running session, marking step "step1" completed. -/
theorem C10_progress_witness :
    ∃ s p,
      (update_session_progress
        [("s1", { lab_id := "lab1", start_time := "2024-01-02T03:04:05",
                  status := "running", «resources» := emptyResources,
                  estimated_cost := 0, actual_cost := 0, resource_tags := [],
                  end_time := none, cleanup_time := none,
                  cleanup_verified := none, progress := none })]
        "s1" "step1" true none
        ⟨2024, 1, 2, 3, 4, 5, 0, by norm_num, by norm_num, by norm_num,
          by norm_num, by norm_num, by norm_num, by norm_num, by norm_num,
          by norm_num, by norm_num⟩).2.lookup "s1" = some s ∧
      s.progress = some p ∧
      p.steps ≠ [] ∧
      p.completion_percentage =
        100 * ((p.steps.filter (fun st => st.completed)).length : ℚ) /
          (p.steps.length : ℚ) ∧
      0 ≤ p.completion_percentage ∧ p.completion_percentage ≤ 100 ∧
      p.current_step = (if true then
        (p.steps.find? (fun st => !st.completed)).map (fun st => st.name)
      else some "step1") :=
  C10_progress _ "s1" "step1" true none _ rfl

theorem takeDigitsN_append {ds : List Char} {n : Nat}
    (hlen : ds.length = n) (hd : ∀ c ∈ ds, isDigitCh c = true) (rest : List Char) :
    takeDigitsN n (ds ++ rest) = some rest := by
  induction ds generalizing n with
  | nil => simp at hlen; subst hlen; rfl
  | cons c tl ih =>
    simp only [List.length_cons] at hlen
    subst hlen
    simp only [List.cons_append, takeDigitsN]
    rw [hd c (by simp)]
    simp only [if_true]
    exact ih rfl (fun c hc => hd c (by simp [hc]))

theorem iso_pyIsoformat (d : PyDateTime) : isIsoTimestamp (pyIsoformat d) = true := by
  have hy : (padDigits 4 d.year).length = 4 :=
    padDigits_len (by norm_num) (by have := d.year_ub; omega)
  have hmo : (padDigits 2 d.month).length = 2 :=
    padDigits_len (by norm_num) (by have := d.month_ub; omega)
  have hda : (padDigits 2 d.day).length = 2 :=
    padDigits_len (by norm_num) (by have := d.day_ub; omega)
  have hho : (padDigits 2 d.hour).length = 2 :=
    padDigits_len (by norm_num) (by have := d.hour_ub; omega)
  have hmi : (padDigits 2 d.minute).length = 2 :=
    padDigits_len (by norm_num) (by have := d.minute_ub; omega)
  have hse : (padDigits 2 d.second).length = 2 :=
    padDigits_len (by norm_num) (by have := d.second_ub; omega)
  have hmu : (padDigits 6 d.microsecond).length = 6 :=
    padDigits_len (by norm_num) (by have := d.microsecond_ub; omega)
  have hse0 : takeDigitsN 2 (padDigits 2 d.second) = some [] := by
    have := takeDigitsN_append hse (padDigits_digits 2 d.second) []
    rwa [List.append_nil] at this
  have hmu0 : takeDigitsN 6 (padDigits 6 d.microsecond) = some [] := by
    have := takeDigitsN_append hmu (padDigits_digits 6 d.microsecond) []
    rwa [List.append_nil] at this
  by_cases hz : d.microsecond = 0
  · simp [isIsoTimestamp, pyIsoformat, hz, List.append_assoc, expectCh,
      takeDigitsN_append hy (padDigits_digits 4 d.year),
      takeDigitsN_append hmo (padDigits_digits 2 d.month),
      takeDigitsN_append hda (padDigits_digits 2 d.day),
      takeDigitsN_append hho (padDigits_digits 2 d.hour),
      takeDigitsN_append hmi (padDigits_digits 2 d.minute),
      takeDigitsN_append hse (padDigits_digits 2 d.second), hse0]
  · simp [isIsoTimestamp, pyIsoformat, hz, List.append_assoc, expectCh,
      takeDigitsN_append hy (padDigits_digits 4 d.year),
      takeDigitsN_append hmo (padDigits_digits 2 d.month),
      takeDigitsN_append hda (padDigits_digits 2 d.day),
      takeDigitsN_append hho (padDigits_digits 2 d.hour),
      takeDigitsN_append hmi (padDigits_digits 2 d.minute),
      takeDigitsN_append hse (padDigits_digits 2 d.second), hse0, hmu0]

theorem mem_of_lookup {α : Type} {m : List (String × α)} {k : String} {v : α}
    (h : m.lookup k = some v) : (k, v) ∈ m := by
  induction m with
  | nil => simp [List.lookup] at h
  | cons p tl ih =>
    obtain ⟨pk, pv⟩ := p
    rw [List.lookup] at h
    by_cases hk : (k == pk) = true
    · rw [hk] at h
      injection h with hv
      rw [beq_iff_eq] at hk
      rw [hk, hv]
      exact List.mem_cons_self _ _
    · rw [Bool.eq_false_iff.mpr hk] at h
      exact List.mem_cons_of_mem _ (ih h)

theorem sessionsInv_dictSet {m : List (String × Session)} {k : String} {v : Session}
    (hm : SessionsInv m) (hv : SessionInv v) : SessionsInv (dictSet m k v) := by
  intro p hp
  simp only [dictSet] at hp
  split at hp
  · rcases List.mem_map.mp hp with ⟨q, hq, hpe⟩
    rw [← hpe]
    split
    · exact hv
    · exact hm q hq
  · rcases List.mem_append.mp hp with h1 | h2
    · exact hm p h1
    · simp only [List.mem_singleton] at h2
      rw [h2]
      exact hv

/-- C4: every sessions-file-writing operation (`start_lab`, `stop_lab`,
`cleanup_session`, `update_session_progress`) preserves the invariant that
the stored structure is a flat map from session-id string to a session record
whose status is one of running, stopped, completed, cleaned_up,
cleanup_failed, whose timestamps (start_time, end_time, cleanup_time) are
ISO-format strings, and whose estimated_cost and actual_cost are numbers (the
latter holds by the `Session` record's typing). -/
theorem C4_invariant (labs : List (String × LabInfo))
    (resource_tags : List (String × String)) (sessions : List (String × Session))
    (lab_id session_id step_name : String) (verify cleanup_success completed : Bool)
    (notes : Option String) (now : PyDateTime) (hInv : SessionsInv sessions) :
    SessionsInv (start_lab labs resource_tags sessions lab_id now).2 ∧
    SessionsInv (stop_lab sessions session_id now).2 ∧
    SessionsInv (cleanup_session sessions session_id verify cleanup_success now).2 ∧
    SessionsInv (update_session_progress sessions session_id step_name completed
      notes now).2 := by
  refine ⟨?_, ?_, ?_, ?_⟩
  · cases hlk : labs.lookup lab_id with
    | none => simpa [start_lab, hlk] using hInv
    | some lab_info =>
      simp only [start_lab, hlk]
      split
      · exact hInv
      · refine sessionsInv_dictSet hInv ⟨?_, ?_, ?_, ?_⟩
        · simp [statusEnum]
        · exact iso_pyIsoformat now
        · intro t ht
          simp at ht
        · intro t ht
          simp at ht
  · cases hlk : sessions.lookup session_id with
    | none => simpa [stop_lab, hlk] using hInv
    | some s =>
      have hs := hInv (session_id, s) (mem_of_lookup hlk)
      simp only [stop_lab, hlk]
      split
      · exact hInv
      · refine sessionsInv_dictSet hInv ⟨?_, ?_, ?_, ?_⟩
        · simp [statusEnum]
        · exact hs.2.1
        · intro t ht
          injection ht with ht
          rw [← ht]
          exact iso_pyIsoformat now
        · exact hs.2.2.2
  · cases hlk : sessions.lookup session_id with
    | none => simpa [cleanup_session, hlk] using hInv
    | some s =>
      have hs := hInv (session_id, s) (mem_of_lookup hlk)
      simp only [cleanup_session, hlk]
      refine sessionsInv_dictSet hInv ⟨?_, ?_, ?_, ?_⟩
      · cases cleanup_success <;> simp [statusEnum]
      · exact hs.2.1
      · exact hs.2.2.1
      · intro t ht
        injection ht with ht
        rw [← ht]
        exact iso_pyIsoformat now
  · cases hlk : sessions.lookup session_id with
    | none => simpa [update_session_progress, hlk] using hInv
    | some s =>
      have hs := hInv (session_id, s) (mem_of_lookup hlk)
      simp only [update_session_progress, hlk]
      exact sessionsInv_dictSet hInv ⟨hs.1, hs.2.1, hs.2.2.1, hs.2.2.2⟩

/-- Witness for C4: the empty sessions map and a concrete date. -/
theorem C4_invariant_witness :
    SessionsInv (start_lab [("lab1", ⟨"Lab One", "labs/one", 1⟩)] [] [] "lab1"
      ⟨2024, 1, 2, 3, 4, 5, 0, by norm_num, by norm_num, by norm_num, by norm_num,
        by norm_num, by norm_num, by norm_num, by norm_num, by norm_num,
        by norm_num⟩).2 ∧
    SessionsInv (stop_lab [] "s1"
      ⟨2024, 1, 2, 3, 4, 5, 0, by norm_num, by norm_num, by norm_num, by norm_num,
        by norm_num, by norm_num, by norm_num, by norm_num, by norm_num,
        by norm_num⟩).2 ∧
    SessionsInv (cleanup_session [] "s1" true true
      ⟨2024, 1, 2, 3, 4, 5, 0, by norm_num, by norm_num, by norm_num, by norm_num,
        by norm_num, by norm_num, by norm_num, by norm_num, by norm_num,
        by norm_num⟩).2 ∧
    SessionsInv (update_session_progress [] "s1" "step1" true none
      ⟨2024, 1, 2, 3, 4, 5, 0, by norm_num, by norm_num, by norm_num, by norm_num,
        by norm_num, by norm_num, by norm_num, by norm_num, by norm_num,
        by norm_num⟩).2 :=
  C4_invariant [("lab1", ⟨"Lab One", "labs/one", 1⟩)] [] [] "lab1" "s1" "step1" true true true none
    ⟨2024, 1, 2, 3, 4, 5, 0, by norm_num, by norm_num, by norm_num, by norm_num,
      by norm_num, by norm_num, by norm_num, by norm_num, by norm_num,
      by norm_num⟩
    (fun p hp => absurd hp (List.not_mem_nil p))

theorem dictSet_fresh {α : Type} (m : List (String × α)) (k : String) (v : α)
    (h : m.any (fun p => p.1 == k) = false) : dictSet m k v = m ++ [(k, v)] := by
  simp only [dictSet, h]
  rfl

/-- C8 (amended): `start_lab` is atomic on failure — an unknown lab id or an
already-running session of the same lab returns False and leaves the sessions
map unchanged — and on success it stores one new running-session record; when
the generated session id `lab_id-YYYYmmdd-HHMMSS` is not already a key of the
map, the new record is appended and every pre-existing record is unchanged.
(Without that freshness condition the new record silently replaces the
pre-existing one under the same key.) -/
theorem C8_start_lab_atomic (labsA labsB : List (String × LabInfo))
    (lab_info : LabInfo) (resource_tags : List (String × String))
    (sessionsA sessionsB sessionsC : List (String × Session)) (lab_id : String)
    (now : PyDateTime)
    (hA : labsA.lookup lab_id = none)
    (hB : labsB.lookup lab_id = some lab_info)
    (hrunB : sessionsB.any
      (fun p => p.2.lab_id == lab_id && p.2.status == "running") = true)
    (hrunC : sessionsC.any
      (fun p => p.2.lab_id == lab_id && p.2.status == "running") = false)
    (hfresh : sessionsC.any
      (fun p => p.1 == lab_id ++ "-" ++ pyStrftimeId now) = false) :
    start_lab labsA resource_tags sessionsA lab_id now = (false, sessionsA) ∧
    start_lab labsB resource_tags sessionsB lab_id now = (false, sessionsB) ∧
    start_lab labsB resource_tags sessionsC lab_id now =
      (true, sessionsC ++ [(lab_id ++ "-" ++ pyStrftimeId now,
        { lab_id := lab_id
          start_time := pyIsoformat now
          status := "running"
          «resources» := emptyResources
          estimated_cost := lab_info.estimated_cost
          actual_cost := 0
          resource_tags := dictSet (dictSet resource_tags "SessionId"
            (lab_id ++ "-" ++ pyStrftimeId now)) "LabId" lab_id
          end_time := none
          cleanup_time := none
          cleanup_verified := none
          progress := none })]) := by
  refine ⟨?_, ?_, ?_⟩
  · simp [start_lab, hA]
  · simp only [start_lab, hB, hrunB]
    rfl
  · simp only [start_lab, hB, hrunC]
    rw [if_neg (by simp)]
    rw [dictSet_fresh sessionsC _ _ hfresh]

/-- Witness for C8 at concrete inputs: an unknown lab, a lab with a running
session, and a fresh start from an empty sessions map. -/
theorem C8_start_lab_atomic_witness :
    start_lab [] [] [] "lab1"
      ⟨2024, 1, 2, 3, 4, 5, 0, by norm_num, by norm_num, by norm_num, by norm_num,
        by norm_num, by norm_num, by norm_num, by norm_num, by norm_num,
        by norm_num⟩ = (false, []) ∧
    start_lab [("lab1", ⟨"Lab One", "labs/one", 1⟩)] []
      [("k", ⟨"lab1", "2024-01-01T00:00:00", "running", emptyResources, 1, 0, [],
        none, none, none, none⟩)] "lab1"
      ⟨2024, 1, 2, 3, 4, 5, 0, by norm_num, by norm_num, by norm_num, by norm_num,
        by norm_num, by norm_num, by norm_num, by norm_num, by norm_num,
        by norm_num⟩ =
      (false, [("k", ⟨"lab1", "2024-01-01T00:00:00", "running", emptyResources,
        1, 0, [], none, none, none, none⟩)]) ∧
    start_lab [("lab1", ⟨"Lab One", "labs/one", 1⟩)] [] [] "lab1"
      ⟨2024, 1, 2, 3, 4, 5, 0, by norm_num, by norm_num, by norm_num, by norm_num,
        by norm_num, by norm_num, by norm_num, by norm_num, by norm_num,
        by norm_num⟩ =
      (true, [] ++ [("lab1" ++ "-" ++ pyStrftimeId
        ⟨2024, 1, 2, 3, 4, 5, 0, by norm_num, by norm_num, by norm_num, by norm_num,
          by norm_num, by norm_num, by norm_num, by norm_num, by norm_num,
          by norm_num⟩,
        { lab_id := "lab1"
          start_time := pyIsoformat
            ⟨2024, 1, 2, 3, 4, 5, 0, by norm_num, by norm_num, by norm_num,
              by norm_num, by norm_num, by norm_num, by norm_num, by norm_num,
              by norm_num, by norm_num⟩
          status := "running"
          «resources» := emptyResources
          estimated_cost := (1 : ℚ)
          actual_cost := 0
          resource_tags := dictSet (dictSet [] "SessionId"
            ("lab1" ++ "-" ++ pyStrftimeId
              ⟨2024, 1, 2, 3, 4, 5, 0, by norm_num, by norm_num, by norm_num,
                by norm_num, by norm_num, by norm_num, by norm_num, by norm_num,
                by norm_num, by norm_num⟩)) "LabId" "lab1"
          end_time := none
          cleanup_time := none
          cleanup_verified := none
          progress := none })]) :=
  C8_start_lab_atomic [] [("lab1", ⟨"Lab One", "labs/one", 1⟩)]
    ⟨"Lab One", "labs/one", 1⟩ []
    [] [("k", ⟨"lab1", "2024-01-01T00:00:00", "running", emptyResources, 1, 0, [],
      none, none, none, none⟩)] [] "lab1"
    ⟨2024, 1, 2, 3, 4, 5, 0, by norm_num, by norm_num, by norm_num, by norm_num,
      by norm_num, by norm_num, by norm_num, by norm_num, by norm_num,
      by norm_num⟩
    rfl rfl rfl rfl rfl

/-- Counterexample to the unconditional form of C8: starting `lab1` at the
very timestamp already embedded in an existing (stopped) session's id returns
True but overwrites that record in place — the map still has exactly one
entry and the pre-existing stopped record is gone. -/
theorem C8_overwrite_counterexample :
    (start_lab [("lab1", ⟨"Lab One", "labs/one", 1⟩)] []
      [("lab1" ++ "-" ++ pyStrftimeId
          ⟨2024, 1, 2, 3, 4, 5, 0, by norm_num, by norm_num, by norm_num,
            by norm_num, by norm_num, by norm_num, by norm_num, by norm_num,
            by norm_num, by norm_num⟩,
        ⟨"lab1", "2024-01-01T00:00:00", "stopped", emptyResources, 1, 0, [],
          some "2024-01-01T01:00:00", none, none, none⟩)] "lab1"
      ⟨2024, 1, 2, 3, 4, 5, 0, by norm_num, by norm_num, by norm_num,
        by norm_num, by norm_num, by norm_num, by norm_num, by norm_num,
        by norm_num, by norm_num⟩).1 = true ∧
    (start_lab [("lab1", ⟨"Lab One", "labs/one", 1⟩)] []
      [("lab1" ++ "-" ++ pyStrftimeId
          ⟨2024, 1, 2, 3, 4, 5, 0, by norm_num, by norm_num, by norm_num,
            by norm_num, by norm_num, by norm_num, by norm_num, by norm_num,
            by norm_num, by norm_num⟩,
        ⟨"lab1", "2024-01-01T00:00:00", "stopped", emptyResources, 1, 0, [],
          some "2024-01-01T01:00:00", none, none, none⟩)] "lab1"
      ⟨2024, 1, 2, 3, 4, 5, 0, by norm_num, by norm_num, by norm_num,
        by norm_num, by norm_num, by norm_num, by norm_num, by norm_num,
        by norm_num, by norm_num⟩).2.length = 1 ∧
    (start_lab [("lab1", ⟨"Lab One", "labs/one", 1⟩)] []
      [("lab1" ++ "-" ++ pyStrftimeId
          ⟨2024, 1, 2, 3, 4, 5, 0, by norm_num, by norm_num, by norm_num,
            by norm_num, by norm_num, by norm_num, by norm_num, by norm_num,
            by norm_num, by norm_num⟩,
        ⟨"lab1", "2024-01-01T00:00:00", "stopped", emptyResources, 1, 0, [],
          some "2024-01-01T01:00:00", none, none, none⟩)] "lab1"
      ⟨2024, 1, 2, 3, 4, 5, 0, by norm_num, by norm_num, by norm_num,
        by norm_num, by norm_num, by norm_num, by norm_num, by norm_num,
        by norm_num, by norm_num⟩).2.lookup
      ("lab1" ++ "-" ++ pyStrftimeId
        ⟨2024, 1, 2, 3, 4, 5, 0, by norm_num, by norm_num, by norm_num,
          by norm_num, by norm_num, by norm_num, by norm_num, by norm_num,
          by norm_num, by norm_num⟩) ≠
      some ⟨"lab1", "2024-01-01T00:00:00", "stopped", emptyResources, 1, 0, [],
        some "2024-01-01T01:00:00", none, none, none⟩ := by
  refine ⟨rfl, ?_, ?_⟩
  · simp [start_lab, List.lookup, dictSet]
  · simp [start_lab, List.lookup, dictSet]

/-- C1 (amended): each resource-discovery operation catches the AWS
`ClientError` instead of propagating it: `_get_session_stacks` returns `[]`
when `list_stacks` raises; `_get_stack_tags` returns `\x7b\x7d` when
`describe_stacks` raises; and `get_resource_inventory` returns the inventory
dictionary as built so far — default-empty lists when the initial
`list_stacks` call raises, but with the already-discovered resource lists
retained when a later call (here `describe_instances`) raises. -/
theorem C1_client_error_defaults (api apiB : AwsApi) (sid : Option String)
    (sidStr name e0 e1 e2 : String) (stResp : StacksResp)
    (entries : List StackEntry)
    (h0 : apiB.list_stacks = .error e0)
    (h1 : api.describe_stacks name = .error e1)
    (h2 : api.list_stacks = .ok stResp)
    (h3 : inventoryStacks api sid stResp.StackSummaries = .ok entries)
    (h4 : api.describe_instances = .error e2) :
    get_session_stacks apiB sidStr = .ok [] ∧
    get_stack_tags api name = .ok [] ∧
    get_resource_inventory apiB sid = .ok emptyInventory ∧
    get_resource_inventory api sid =
      .ok { emptyInventory with cloudformation_stacks := entries } := by
  refine ⟨?_, ?_, ?_, ?_⟩
  · simp [get_session_stacks, h0]
  · simp [get_stack_tags, h1]
  · simp [get_resource_inventory, h0]
  · simp [get_resource_inventory, h2, h3, h4]

/-- Witness for C1: an all-denied API and one whose `list_stacks` succeeds
with a single stack whose details are denied. -/
theorem C1_client_error_defaults_witness :
    get_session_stacks ⟨.error "AccessDenied", fun _ => .error "AccessDenied",
      .error "AccessDenied", .error "AccessDenied",
      fun _ => .error "AccessDenied"⟩ "s1" = .ok [] ∧
    get_stack_tags ⟨.ok ⟨[⟨"stack1", "CREATE_COMPLETE", "2024-01-01T00:00:00"⟩]⟩,
      fun _ => .error "AccessDenied", .error "AccessDenied", .error "AccessDenied",
      fun _ => .error "AccessDenied"⟩ "stack1" = .ok [] ∧
    get_resource_inventory ⟨.error "AccessDenied", fun _ => .error "AccessDenied",
      .error "AccessDenied", .error "AccessDenied",
      fun _ => .error "AccessDenied"⟩ (some "s1") = .ok emptyInventory ∧
    get_resource_inventory ⟨.ok ⟨[⟨"stack1", "CREATE_COMPLETE",
        "2024-01-01T00:00:00"⟩]⟩,
      fun _ => .error "AccessDenied", .error "AccessDenied", .error "AccessDenied",
      fun _ => .error "AccessDenied"⟩ (some "s1") =
      .ok { emptyInventory with cloudformation_stacks := [] } :=
  C1_client_error_defaults
    ⟨.ok ⟨[⟨"stack1", "CREATE_COMPLETE", "2024-01-01T00:00:00"⟩]⟩,
      fun _ => .error "AccessDenied", .error "AccessDenied", .error "AccessDenied",
      fun _ => .error "AccessDenied"⟩
    ⟨.error "AccessDenied", fun _ => .error "AccessDenied", .error "AccessDenied",
      .error "AccessDenied", fun _ => .error "AccessDenied"⟩
    (some "s1") "s1" "stack1" "AccessDenied" "AccessDenied" "AccessDenied"
    ⟨[⟨"stack1", "CREATE_COMPLETE", "2024-01-01T00:00:00"⟩]⟩ []
    rfl rfl rfl rfl rfl

/-- Counterexample to the original C1 wording: after a `ClientError` from
`describe_instances`, `get_resource_inventory` returns the stacks it had
already discovered — not an inventory with default-empty resource lists. -/
theorem C1_partial_inventory_counterexample :
    (⟨.ok ⟨[⟨"stack1", "CREATE_COMPLETE", "2024-01-01T00:00:00"⟩]⟩,
      fun _ => .ok ⟨[⟨some [("Project", "AWSDevOpsLabs"), ("SessionId", "s1")]⟩]⟩,
      .error "AccessDenied", .error "AccessDenied",
      fun _ => .error "AccessDenied"⟩ : AwsApi).describe_instances =
      .error "AccessDenied" ∧
    get_resource_inventory
      ⟨.ok ⟨[⟨"stack1", "CREATE_COMPLETE", "2024-01-01T00:00:00"⟩]⟩,
        fun _ => .ok ⟨[⟨some [("Project", "AWSDevOpsLabs"), ("SessionId", "s1")]⟩]⟩,
        .error "AccessDenied", .error "AccessDenied",
        fun _ => .error "AccessDenied"⟩ (some "s1") =
      .ok { emptyInventory with cloudformation_stacks :=
        [⟨"stack1", "CREATE_COMPLETE", "2024-01-01T00:00:00",
          [("Project", "AWSDevOpsLabs"), ("SessionId", "s1")]⟩] } ∧
    get_resource_inventory
      ⟨.ok ⟨[⟨"stack1", "CREATE_COMPLETE", "2024-01-01T00:00:00"⟩]⟩,
        fun _ => .ok ⟨[⟨some [("Project", "AWSDevOpsLabs"), ("SessionId", "s1")]⟩]⟩,
        .error "AccessDenied", .error "AccessDenied",
        fun _ => .error "AccessDenied"⟩ (some "s1") ≠ .ok emptyInventory := by
  refine ⟨rfl, rfl, ?_⟩
  intro h
  rw [show get_resource_inventory
      ⟨.ok ⟨[⟨"stack1", "CREATE_COMPLETE", "2024-01-01T00:00:00"⟩]⟩,
        fun _ => .ok ⟨[⟨some [("Project", "AWSDevOpsLabs"), ("SessionId", "s1")]⟩]⟩,
        .error "AccessDenied", .error "AccessDenied",
        fun _ => .error "AccessDenied"⟩ (some "s1") =
      .ok { emptyInventory with cloudformation_stacks :=
        [⟨"stack1", "CREATE_COMPLETE", "2024-01-01T00:00:00",
          [("Project", "AWSDevOpsLabs"), ("SessionId", "s1")]⟩] } from rfl] at h
  simp [emptyInventory] at h
